import Mathlib

/-!
Verification of the snowflake id generator (`src/lib.rs`).

Shallow embedding conventions:
* `i64` values are modelled as `Int` with two's-complement wrapping made
  explicit (`wrap64`); a Rust `u64` bit pattern is a `Nat` below `2 ^ 64`.
* The system clock is an arbitrary stream `Clock : Nat → Int`; each
  `get_time_millis()` call consumes one tick, so generator operations carry
  the current tick and return the next one.
* The busy-wait loop `biding_time_conditions` is given polling fuel and
  returns `none` when the fuel runs out; termination statements assert that
  some fuel suffices.
* Strings are handled through their character lists; `split('.')` and
  `str::parse::<i64>` are translated directly.
-/

namespace Snow

/-- Two's-complement wrap of an integer into the `i64` range. -/
def wrap64 (z : Int) : Int := (z + 2 ^ 63) % 2 ^ 64 - 2 ^ 63

/-- The `u64` bit pattern of an `i64` value (Rust `as u64`). -/
def u64ofI64 (z : Int) : Nat := (z % 2 ^ 64).toNat

/-- The `i64` value of a `u64` bit pattern (Rust `as i64`). -/
def i64ofU64 (n : Nat) : Int := if n < 2 ^ 63 then (n : Int) else (n : Int) - 2 ^ 64

/-- Rust `i64` left shift `x << n` (bits shifted out are discarded). -/
def i64shl (x : Int) (n : Nat) : Int := wrap64 (x * 2 ^ n)

/-- Rust `i64` bitwise or, computed on the `u64` bit patterns. -/
def i64lor (x y : Int) : Int := i64ofU64 (u64ofI64 x ||| u64ofI64 y)

/-- The `SnowflakeIdGenerator` struct: `last_time_millis: i64`,
`machine_bits: i64`, `idx: u16`. -/
structure SnowflakeIdGenerator where
  last_time_millis : Int
  machine_bits : Int
  idx : Nat
  deriving DecidableEq, Repr

/-- The decoded `Snowflake` struct. -/
structure Snowflake where
  timestamp : Int
  machine_bits : Int
  idx : Nat
  deriving DecidableEq, Repr

/-- The id-packing expression shared by all three generation strategies:
`last_time_millis << 22 | ((machine_bits << 12) as i64) | (idx as i64)`. -/
def mkSnowflakeId (last machine : Int) (idx : Nat) : Int :=
  i64lor (i64lor (i64shl last 22) (i64shl machine 12)) (idx : Int)

/-- The `u16` expression `(idx + 1) % 2048`: the addition wraps at `2 ^ 16`. -/
def idxStep (idx : Nat) : Nat := ((idx + 1) % 65536) % 2048

/-- A stream of clock readings; reading `t` is what the `t`-th call of
`get_time_millis()` returns. -/
abbrev Clock := Nat → Int

/-- `biding_time_conditions`: busy-polls the clock from tick `t` until a
reading strictly exceeds `last_time_millis`, returning that reading and the
next tick; `none` when `fuel` polls were not enough. -/
def biding_time_conditions (clock : Clock) (last_time_millis : Int) :
    Nat → Nat → Option (Int × Nat)
  | _, 0 => none
  | t, fuel + 1 =>
    let latest_time_millis := clock t
    if last_time_millis < latest_time_millis then some (latest_time_millis, t + 1)
    else biding_time_conditions clock last_time_millis (t + 1) fuel

/-- `generate`: refreshes `last_time_millis` only when `idx` wraps to `0`;
returns the packed id, the post-call generator state and the next tick. -/
def generate (clock : Clock) (fuel : Nat) (g : SnowflakeIdGenerator) (t : Nat) :
    Option (Int × SnowflakeIdGenerator × Nat) :=
  let idx1 := idxStep g.idx
  if idx1 = 0 then
    let now_millis := clock t
    if now_millis = g.last_time_millis then
      match biding_time_conditions clock g.last_time_millis (t + 1) fuel with
      | none => none
      | some (now2, t2) =>
        let g' : SnowflakeIdGenerator := ⟨now2, g.machine_bits, idx1⟩
        some (mkSnowflakeId g'.last_time_millis g'.machine_bits g'.idx, g', t2)
    else
      let g' : SnowflakeIdGenerator := ⟨now_millis, g.machine_bits, idx1⟩
      some (mkSnowflakeId g'.last_time_millis g'.machine_bits g'.idx, g', t + 1)
  else
    let g' : SnowflakeIdGenerator := ⟨g.last_time_millis, g.machine_bits, idx1⟩
    some (mkSnowflakeId g'.last_time_millis g'.machine_bits g'.idx, g', t)

/-- `real_time_generate`: reads the clock on every call; on an unchanged
reading with a wrapped `idx` it busy-waits, on a changed reading it adopts the
reading and resets `idx` to `0`. -/
def real_time_generate (clock : Clock) (fuel : Nat) (g : SnowflakeIdGenerator)
    (t : Nat) : Option (Int × SnowflakeIdGenerator × Nat) :=
  let idx1 := idxStep g.idx
  let now_millis := clock t
  if now_millis = g.last_time_millis then
    if idx1 = 0 then
      match biding_time_conditions clock g.last_time_millis (t + 1) fuel with
      | none => none
      | some (now2, t2) =>
        let g' : SnowflakeIdGenerator := ⟨now2, g.machine_bits, idx1⟩
        some (mkSnowflakeId g'.last_time_millis g'.machine_bits g'.idx, g', t2)
    else
      let g' : SnowflakeIdGenerator := ⟨g.last_time_millis, g.machine_bits, idx1⟩
      some (mkSnowflakeId g'.last_time_millis g'.machine_bits g'.idx, g', t + 1)
  else
    let g' : SnowflakeIdGenerator := ⟨now_millis, g.machine_bits, 0⟩
    some (mkSnowflakeId g'.last_time_millis g'.machine_bits g'.idx, g', t + 1)

/-- `lazy_generate`: never reads the clock; on an `idx` wrap it increments
`last_time_millis` (an `i64` increment, hence wrapping). -/
def lazy_generate (g : SnowflakeIdGenerator) : Int × SnowflakeIdGenerator :=
  let idx1 := idxStep g.idx
  let g' : SnowflakeIdGenerator :=
    if idx1 = 0 then ⟨wrap64 (g.last_time_millis + 1), g.machine_bits, idx1⟩
    else ⟨g.last_time_millis, g.machine_bits, idx1⟩
  (mkSnowflakeId g'.last_time_millis g'.machine_bits g'.idx, g')

/-- `reverse`: decodes a `u64` bit pattern with the fixed masks of the
source (`0x7FFFFFFFFFC00000`, `0x3FF000`, `0x3FF`). -/
def reverse (snowflake : Nat) : Snowflake :=
  let timestamp_mask : Nat := 0x7FFFFFFFFFC00000
  let ip_mask : Nat := 0x3FF000
  let sequence_mask : Nat := 0x3FF
  { timestamp := i64ofU64 ((snowflake &&& timestamp_mask) >>> 22)
    machine_bits := i64ofU64 ((snowflake &&& ip_mask) >>> 12)
    idx := (snowflake &&& sequence_mask) % 65536 }

end Snow

namespace Snow

/-! ### Bit-pattern arithmetic for the packing and decoding operations -/

lemma u64ofI64_lt (z : Int) : u64ofI64 z < 2 ^ 64 := by
  have h1 : (0:Int) < 2 ^ 64 := by positivity
  have := Int.emod_lt_of_pos z h1
  have h0 := Int.emod_nonneg z (by positivity : (2:Int) ^ 64 ≠ 0)
  unfold u64ofI64
  omega

lemma u64ofI64_i64ofU64 (p : Nat) (hp : p < 2 ^ 64) : u64ofI64 (i64ofU64 p) = p := by
  unfold u64ofI64 i64ofU64
  split <;> rename_i h
  · rw [Int.emod_eq_of_lt (by positivity) (by exact_mod_cast h.trans (by norm_num))]
    simp
  · have : ((p : Int) - 2 ^ 64) % 2 ^ 64 = p % 2 ^ 64 := by
      omega
    rw [this, Int.emod_eq_of_lt (by positivity) (by exact_mod_cast hp)]
    simp

lemma i64ofU64_inj {p q : Nat} (hp : p < 2 ^ 64) (hq : q < 2 ^ 64)
    (h : i64ofU64 p = i64ofU64 q) : p = q := by
  have := congrArg u64ofI64 h
  rwa [u64ofI64_i64ofU64 p hp, u64ofI64_i64ofU64 q hq] at this

lemma u64ofI64_wrap64 (z : Int) : u64ofI64 (wrap64 z) = u64ofI64 z := by
  unfold u64ofI64 wrap64
  congr 1
  omega

lemma u64ofI64_i64lor (x y : Int) :
    u64ofI64 (i64lor x y) = u64ofI64 x ||| u64ofI64 y := by
  unfold i64lor
  exact u64ofI64_i64ofU64 _ (Nat.or_lt_two_pow (u64ofI64_lt x) (u64ofI64_lt y))

lemma u64ofI64_i64shl (x : Int) (n : Nat) (hn : n ≤ 64) :
    u64ofI64 (i64shl x n) = 2 ^ n * (x % 2 ^ (64 - n)).toNat := by
  unfold i64shl
  rw [u64ofI64_wrap64]
  unfold u64ofI64
  have hsplit : (2:Int) ^ 64 = 2 ^ n * 2 ^ (64 - n) := by
    rw [← pow_add]; congr 1; omega
  have h1 : x * 2 ^ n % 2 ^ 64 = 2 ^ n * (x % 2 ^ (64 - n)) := by
    rw [hsplit, mul_comm x, Int.mul_emod_mul_of_pos _ _ (by positivity : (0:Int) < 2 ^ n)]
  rw [h1]
  have h0 := Int.emod_nonneg x (by positivity : (2:Int) ^ (64 - n) ≠ 0)
  have h2 : (2:Int) ^ n * (x % 2 ^ (64 - n)) =
      ((2 ^ n * (x % 2 ^ (64 - n)).toNat : Nat) : Int) := by
    push_cast
    rw [Int.toNat_of_nonneg h0]
  rw [h2, Int.toNat_ofNat]

lemma u64ofI64_ofNat (i : Nat) (hi : i < 2 ^ 64) : u64ofI64 (i : Int) = i := by
  unfold u64ofI64
  rw [Int.emod_eq_of_lt (by positivity) (by exact_mod_cast hi)]
  simp

/-- The bit pattern of a packed id: the timestamp keeps its low 42 bits
(bit 41 lands on the sign bit), the machine field sits at bits 12–21, the
sequence at bits 0–10. -/
lemma pack_pattern (t m : Int) (i : Nat) (hm : 0 ≤ m) (hm2 : m < 2 ^ 10)
    (hi : i < 2 ^ 11) :
    u64ofI64 (mkSnowflakeId t m i) =
      2 ^ 22 * (t % 2 ^ 42).toNat + 2 ^ 12 * m.toNat + i := by
  unfold mkSnowflakeId
  rw [u64ofI64_i64lor, u64ofI64_i64lor, u64ofI64_i64shl t 22 (by norm_num),
    u64ofI64_i64shl m 12 (by norm_num), u64ofI64_ofNat i (by omega)]
  have hmm : m % 2 ^ 52 = m :=
    Int.emod_eq_of_lt hm (by linarith [hm2, (by norm_num : (2:Int) ^ 10 < 2 ^ 52)])
  rw [show (64 - 22) = 42 from rfl, show (64 - 12) = 52 from rfl, hmm]
  set a := (t % 2 ^ 42).toNat with ha
  have halt : a < 2 ^ 42 := by
    have := Int.emod_lt_of_pos t (by positivity : (0:Int) < 2 ^ 42)
    have := Int.emod_nonneg t (by positivity : (2:Int) ^ 42 ≠ 0)
    omega
  have hmt : m.toNat < 2 ^ 10 := by omega
  have h1 : 2 ^ 22 * a ||| 2 ^ 12 * m.toNat = 2 ^ 22 * a + 2 ^ 12 * m.toNat := by
    rw [← Nat.mul_add_lt_is_or (by omega : 2 ^ 12 * m.toNat < 2 ^ 22) a]
  rw [h1]
  have h2 : 2 ^ 22 * a + 2 ^ 12 * m.toNat = 2 ^ 12 * (2 ^ 10 * a + m.toNat) := by ring
  rw [h2, ← Nat.mul_add_lt_is_or (by omega : i < 2 ^ 12) _]

lemma and_mask_shift (p j k : Nat) :
    (p &&& ((2 ^ k - 1) <<< j)) >>> j = p / 2 ^ j % 2 ^ k := by
  apply Nat.eq_of_testBit_eq
  intro i
  simp only [Nat.testBit_shiftRight, Nat.testBit_and, Nat.testBit_shiftLeft,
    Nat.testBit_two_pow_sub_one, Nat.testBit_mod_two_pow]
  rw [show p / 2 ^ j = p >>> j from (Nat.shiftRight_eq_div_pow p j).symm]
  simp only [Nat.testBit_shiftRight]
  by_cases h : i < k
  · simp [h, Nat.add_sub_cancel_left, Bool.and_comm]
  · simp [h]

/-- Decoding a pattern made of a 42-bit timestamp block, a 10-bit machine
field and a 10-bit sequence: the decoder only recovers 41 timestamp bits. -/
lemma reverse_add (tl m i : Nat) (hm : m < 2 ^ 10) (hi : i < 2 ^ 10) :
    reverse (2 ^ 22 * tl + 2 ^ 12 * m + i) =
      ⟨((tl % 2 ^ 41 : Nat) : Int), (m : Int), i⟩ := by
  simp only [reverse]
  have e1 : (0x7FFFFFFFFFC00000 : Nat) = (2 ^ 41 - 1) <<< 22 := by
    norm_num [Nat.shiftLeft_eq]
  have e2 : (0x3FF000 : Nat) = (2 ^ 10 - 1) <<< 12 := by
    norm_num [Nat.shiftLeft_eq]
  have e3 : (0x3FF : Nat) = 2 ^ 10 - 1 := by norm_num
  rw [e1, e2, e3, and_mask_shift, and_mask_shift, Nat.and_pow_two_sub_one_eq_mod]
  have hts : (2 ^ 22 * tl + 2 ^ 12 * m + i) / 2 ^ 22 % 2 ^ 41 = tl % 2 ^ 41 := by
    omega
  have hma : (2 ^ 22 * tl + 2 ^ 12 * m + i) / 2 ^ 12 % 2 ^ 10 = m := by
    omega
  have hidx : (2 ^ 22 * tl + 2 ^ 12 * m + i) % 2 ^ 10 % 65536 = i := by
    omega
  rw [hts, hma, hidx]
  unfold i64ofU64
  rw [if_pos (by omega), if_pos (by omega)]

/-- Round trip of the packed id through `reverse`, under the bounds where no
field is truncated: timestamp in `[0, 2 ^ 41)`, machine in `[0, 2 ^ 10)`,
sequence in `[0, 2 ^ 10)`. -/
lemma reverse_mkSnowflakeId (l m : Int) (i : Nat) (hl : 0 ≤ l) (hl2 : l < 2 ^ 41)
    (hm : 0 ≤ m) (hm2 : m < 2 ^ 10) (hi : i < 2 ^ 10) :
    reverse (u64ofI64 (mkSnowflakeId l m i)) = ⟨l, m, i⟩ := by
  rw [pack_pattern l m i hm hm2 (by omega)]
  have hml : l % 2 ^ 42 = l :=
    Int.emod_eq_of_lt hl (by linarith [hl2, (by norm_num : (2:Int) ^ 41 < 2 ^ 42)])
  rw [hml, reverse_add l.toNat m.toNat i (by omega) hi]
  have h1 : l.toNat % 2 ^ 41 = l.toNat := Nat.mod_eq_of_lt (by omega)
  rw [h1]
  congr 1 <;> omega

end Snow

namespace Snow

/-! ### Call sequences -/

/-- The three generation strategies. -/
inductive Strategy where
  | basic
  | realTime
  | lazy
  deriving DecidableEq, Repr

/-- One generation call of the given strategy. -/
def stepGen (clock : Clock) (fuel : Nat) :
    Strategy → SnowflakeIdGenerator → Nat → Option (Int × SnowflakeIdGenerator × Nat)
  | Strategy.basic, g, t => generate clock fuel g t
  | Strategy.realTime, g, t => real_time_generate clock fuel g t
  | Strategy.lazy, g, t => some ((lazy_generate g).1, (lazy_generate g).2, t)

/-- Run a sequence of generation calls, collecting each returned id together
with the post-call generator state. -/
def runGen (clock : Clock) (fuel : Nat) :
    List Strategy → SnowflakeIdGenerator → Nat →
      Option (List (Int × SnowflakeIdGenerator) × SnowflakeIdGenerator × Nat)
  | [], g, t => some ([], g, t)
  | s :: rest, g, t =>
    match stepGen clock fuel s g t with
    | none => none
    | some (id, g1, t1) =>
      match runGen clock fuel rest g1 t1 with
      | none => none
      | some (l, gf, tf) => some ((id, g1) :: l, gf, tf)

/-! ### Construction from a dotted address -/

/-- Rust `str::split('.')` on a character list. -/
def splitOnDot : List Char → List (List Char)
  | [] => [[]]
  | c :: rest =>
    if c = '.' then [] :: splitOnDot rest
    else
      match splitOnDot rest with
      | [] => [[c]]
      | p :: ps => (c :: p) :: ps

/-- Accumulating decimal evaluation of a digit run; `none` on a non-digit. -/
def digitsValAux : List Char → Nat → Option Nat
  | [], acc => some acc
  | c :: cs, acc =>
    if c.isDigit then digitsValAux cs (acc * 10 + (c.toNat - 48)) else none

/-- Value of a nonempty all-digit character run. -/
def digitsVal : List Char → Option Nat
  | [] => none
  | c :: cs => digitsValAux (c :: cs) 0

/-- Rust `str::parse::<i64>()`: optional sign, one or more ASCII digits, and
the value must fit `i64`.  Rust checks overflow on each accumulation step;
since the accumulator grows monotonically this is equivalent to one final
range check, which is how it is written here. -/
def parseI64 (s : List Char) : Option Int :=
  match s with
  | [] => none
  | '-' :: rest =>
    (digitsVal rest).bind fun n =>
      if n ≤ 2 ^ 63 then some (-(n : Int)) else none
  | '+' :: rest =>
    (digitsVal rest).bind fun n =>
      if n < 2 ^ 63 then some (n : Int) else none
  | _ =>
    (digitsVal s).bind fun n =>
      if n < 2 ^ 63 then some (n : Int) else none

/-- `numerize`: `part.to_string().parse::<i64>().unwrap()`; `none` models the
`unwrap` panic. -/
def numerize (part : List Char) : Option Int := parseI64 part

/-- `new_from_ip`: split the address on dots and combine components 2 and 3
as `numerize(ip_split[2]) << 8 | numerize(ip_split[3])`; `none` models a
panic (missing component or failed parse).  The clock reading taken at
construction is passed in as `now`. -/
def new_from_ip (now : Int) (ip : List Char) : Option SnowflakeIdGenerator :=
  let ip_split := splitOnDot ip
  match ip_split[2]? , ip_split[3]? with
  | some p2, some p3 =>
    match numerize p2, numerize p3 with
    | some a, some b => some ⟨now, i64lor (i64shl a 8) b, 0⟩
    | _, _ => none
  | _, _ => none

/-- Iterated `lazy_generate`, following only the generator state. -/
def lazyIter : Nat → SnowflakeIdGenerator → SnowflakeIdGenerator
  | 0, g => g
  | n + 1, g => lazyIter n (lazy_generate g).2

end Snow

namespace Snow

lemma biding_some {clock : Clock} {fl : Int} {t fuel : Nat} {r : Int} {t2 : Nat}
    (h : biding_time_conditions clock fl t fuel = some (r, t2)) :
    ∃ s, t ≤ s ∧ t2 = s + 1 ∧ r = clock s ∧ fl < r := by
  induction fuel generalizing t with
  | zero => simp [biding_time_conditions] at h
  | succ n ih =>
    rw [biding_time_conditions] at h
    split at h
    · rename_i hc
      simp only [Option.some.injEq, Prod.mk.injEq] at h
      exact ⟨t, le_refl t, h.2.symm, h.1.symm, h.1 ▸ hc⟩
    · obtain ⟨s, hs1, hs2, hs3, hs4⟩ := ih h
      exact ⟨s, by omega, hs2, hs3, hs4⟩

lemma biding_spec {clock : Clock} {fl : Int} (t k fuel : Nat)
    (hmin : ∀ j, j < k → clock (t + j) ≤ fl) (hk : fl < clock (t + k))
    (hfuel : k < fuel) :
    biding_time_conditions clock fl t fuel = some (clock (t + k), t + k + 1) := by
  induction k generalizing t fuel with
  | zero =>
    obtain ⟨n, rfl⟩ : ∃ n, fuel = n + 1 := ⟨fuel - 1, by omega⟩
    have hk' : fl < clock t := by simpa using hk
    simp [biding_time_conditions, hk']
  | succ k ih =>
    obtain ⟨n, rfl⟩ : ∃ n, fuel = n + 1 := ⟨fuel - 1, by omega⟩
    have h0 : ¬ fl < clock t := not_lt.mpr (by simpa using hmin 0 (by omega))
    have hm' : ∀ j, j < k → clock (t + 1 + j) ≤ fl := by
      intro j hj
      have h2 := hmin (j + 1) (by omega)
      have e : t + (j + 1) = t + 1 + j := by omega
      rwa [e] at h2
    have hk' : fl < clock (t + 1 + k) := by
      have e : t + (k + 1) = t + 1 + k := by omega
      rwa [e] at hk
    have hrec := ih (t + 1) n hm' hk' (by omega)
    have e1 : t + (k + 1) = t + 1 + k := by omega
    rw [e1, biding_time_conditions]
    simp only [if_neg h0]
    exact hrec

/-- Anatomy of one generation call: the returned id packs the post-call
state, the machine bits are preserved, and the post-call `idx` is either the
incremented one or `0`. -/
lemma stepGen_cases {clock : Clock} {fuel : Nat} {s : Strategy}
    {g : SnowflakeIdGenerator} {t : Nat} {id : Int} {g' : SnowflakeIdGenerator}
    {t' : Nat} (h : stepGen clock fuel s g t = some (id, g', t')) :
    id = mkSnowflakeId g'.last_time_millis g'.machine_bits g'.idx ∧
    g'.machine_bits = g.machine_bits ∧
    (g'.idx = idxStep g.idx ∨ g'.idx = 0) := by
  cases s with
  | basic =>
    simp only [stepGen, generate] at h
    split at h
    · split at h
      · split at h
        · exact absurd h (by simp)
        · rename_i heq
          simp only [Option.some.injEq, Prod.mk.injEq] at h
          obtain ⟨h1, h2, h3⟩ := h
          subst h2
          exact ⟨h1.symm, rfl, Or.inl rfl⟩
      · simp only [Option.some.injEq, Prod.mk.injEq] at h
        obtain ⟨h1, h2, h3⟩ := h
        subst h2
        exact ⟨h1.symm, rfl, Or.inl rfl⟩
    · simp only [Option.some.injEq, Prod.mk.injEq] at h
      obtain ⟨h1, h2, h3⟩ := h
      subst h2
      exact ⟨h1.symm, rfl, Or.inl rfl⟩
  | realTime =>
    simp only [stepGen, real_time_generate] at h
    split at h
    · split at h
      · split at h
        · exact absurd h (by simp)
        · simp only [Option.some.injEq, Prod.mk.injEq] at h
          obtain ⟨h1, h2, h3⟩ := h
          subst h2
          exact ⟨h1.symm, rfl, Or.inl rfl⟩
      · simp only [Option.some.injEq, Prod.mk.injEq] at h
        obtain ⟨h1, h2, h3⟩ := h
        subst h2
        exact ⟨h1.symm, rfl, Or.inl rfl⟩
    · simp only [Option.some.injEq, Prod.mk.injEq] at h
      obtain ⟨h1, h2, h3⟩ := h
      subst h2
      exact ⟨h1.symm, rfl, Or.inr rfl⟩
  | lazy =>
    by_cases hc : idxStep g.idx = 0
    · have key : stepGen clock fuel Strategy.lazy g t =
          some (mkSnowflakeId (wrap64 (g.last_time_millis + 1)) g.machine_bits 0,
            ⟨wrap64 (g.last_time_millis + 1), g.machine_bits, 0⟩, t) := by
        simp [stepGen, lazy_generate, hc]
      rw [key] at h
      simp only [Option.some.injEq, Prod.mk.injEq] at h
      obtain ⟨h1, h2, h3⟩ := h
      subst h2
      exact ⟨h1.symm, rfl, Or.inr rfl⟩
    · have key : stepGen clock fuel Strategy.lazy g t =
          some (mkSnowflakeId g.last_time_millis g.machine_bits (idxStep g.idx),
            ⟨g.last_time_millis, g.machine_bits, idxStep g.idx⟩, t) := by
        simp [stepGen, lazy_generate, hc]
      rw [key] at h
      simp only [Option.some.injEq, Prod.mk.injEq] at h
      obtain ⟨h1, h2, h3⟩ := h
      subst h2
      exact ⟨h1.symm, rfl, Or.inl rfl⟩
/-! ### Branch evaluations of the generation calls -/

lemma idxStep_lt (i : Nat) : idxStep i < 2048 := Nat.mod_lt _ (by norm_num)

lemma idxStep_of_lt {i : Nat} (h : i + 1 < 2048) : idxStep i = i + 1 := by
  unfold idxStep
  omega

lemma idxStep_2047 : idxStep 2047 = 0 := by decide

lemma generate_nonwrap {clock : Clock} {fuel : Nat} {g : SnowflakeIdGenerator}
    {t : Nat} (hc : idxStep g.idx ≠ 0) :
    generate clock fuel g t =
      some (mkSnowflakeId g.last_time_millis g.machine_bits (idxStep g.idx),
        ⟨g.last_time_millis, g.machine_bits, idxStep g.idx⟩, t) := by
  simp [generate, hc]

lemma generate_wrap_eq_some {clock : Clock} {fuel : Nat} {g : SnowflakeIdGenerator}
    {t : Nat} {r : Int} {t2 : Nat} (hc : idxStep g.idx = 0)
    (heq : clock t = g.last_time_millis)
    (hb : biding_time_conditions clock g.last_time_millis (t + 1) fuel = some (r, t2)) :
    generate clock fuel g t =
      some (mkSnowflakeId r g.machine_bits 0, ⟨r, g.machine_bits, 0⟩, t2) := by
  simp [generate, hc, heq, hb]

lemma generate_wrap_ne {clock : Clock} {fuel : Nat} {g : SnowflakeIdGenerator}
    {t : Nat} (hc : idxStep g.idx = 0) (hne : clock t ≠ g.last_time_millis) :
    generate clock fuel g t =
      some (mkSnowflakeId (clock t) g.machine_bits 0,
        ⟨clock t, g.machine_bits, 0⟩, t + 1) := by
  simp [generate, hc, hne]

lemma real_time_generate_eq_nonwrap {clock : Clock} {fuel : Nat}
    {g : SnowflakeIdGenerator} {t : Nat} (heq : clock t = g.last_time_millis)
    (hc : idxStep g.idx ≠ 0) :
    real_time_generate clock fuel g t =
      some (mkSnowflakeId g.last_time_millis g.machine_bits (idxStep g.idx),
        ⟨g.last_time_millis, g.machine_bits, idxStep g.idx⟩, t + 1) := by
  simp [real_time_generate, hc, heq]

lemma real_time_generate_eq_wrap_some {clock : Clock} {fuel : Nat}
    {g : SnowflakeIdGenerator} {t : Nat} {r : Int} {t2 : Nat}
    (heq : clock t = g.last_time_millis) (hc : idxStep g.idx = 0)
    (hb : biding_time_conditions clock g.last_time_millis (t + 1) fuel = some (r, t2)) :
    real_time_generate clock fuel g t =
      some (mkSnowflakeId r g.machine_bits 0, ⟨r, g.machine_bits, 0⟩, t2) := by
  simp [real_time_generate, hc, heq, hb]

lemma real_time_generate_ne {clock : Clock} {fuel : Nat}
    {g : SnowflakeIdGenerator} {t : Nat} (hne : clock t ≠ g.last_time_millis) :
    real_time_generate clock fuel g t =
      some (mkSnowflakeId (clock t) g.machine_bits 0,
        ⟨clock t, g.machine_bits, 0⟩, t + 1) := by
  simp [real_time_generate, hne]

lemma lazy_generate_wrap {g : SnowflakeIdGenerator} (hc : idxStep g.idx = 0) :
    lazy_generate g =
      (mkSnowflakeId (wrap64 (g.last_time_millis + 1)) g.machine_bits 0,
        ⟨wrap64 (g.last_time_millis + 1), g.machine_bits, 0⟩) := by
  simp [lazy_generate, hc]

lemma lazy_generate_nonwrap {g : SnowflakeIdGenerator} (hc : idxStep g.idx ≠ 0) :
    lazy_generate g =
      (mkSnowflakeId g.last_time_millis g.machine_bits (idxStep g.idx),
        ⟨g.last_time_millis, g.machine_bits, idxStep g.idx⟩) := by
  simp [lazy_generate, hc]

end Snow

namespace Snow

lemma mod_two_pow_or (x y k : Nat) : (x ||| y) % 2 ^ k = x % 2 ^ k ||| y % 2 ^ k := by
  rw [← Nat.and_pow_two_sub_one_eq_mod, ← Nat.and_pow_two_sub_one_eq_mod x,
    ← Nat.and_pow_two_sub_one_eq_mod y, Nat.and_distrib_right]

/-- Low 12 bits of a packed id are the sequence, for arbitrary (even
out-of-range) timestamp and machine values. -/
lemma pattern_mod_4096 (l m : Int) (i : Nat) (hi : i < 2 ^ 12) :
    u64ofI64 (mkSnowflakeId l m i) % 2 ^ 12 = i := by
  unfold mkSnowflakeId
  rw [u64ofI64_i64lor, u64ofI64_i64lor, u64ofI64_i64shl l 22 (by norm_num),
    u64ofI64_i64shl m 12 (by norm_num), u64ofI64_ofNat i (by omega),
    mod_two_pow_or, mod_two_pow_or]
  have h1 : 2 ^ 22 * (l % 2 ^ (64 - 22)).toNat % 2 ^ 12 = 0 := by omega
  have h2 : 2 ^ 12 * (m % 2 ^ (64 - 12)).toNat % 2 ^ 12 = 0 := by omega
  have h3 : i % 2 ^ 12 = i := by omega
  rw [h1, h2, h3]
  simp

/-- Decoded sequence field of a packed id, for arbitrary timestamp and
machine values: only the low 10 of the 11 sequence bits survive. -/
lemma reverse_idx_mk (l m : Int) (i : Nat) (hi : i < 2 ^ 12) :
    (reverse (u64ofI64 (mkSnowflakeId l m i))).idx = i % 2 ^ 10 := by
  simp only [reverse]
  have e3 : (0x3FF : Nat) = 2 ^ 10 - 1 := by norm_num
  rw [e3, Nat.and_pow_two_sub_one_eq_mod]
  have h1 : u64ofI64 (mkSnowflakeId l m i) % 2 ^ 10 =
      u64ofI64 (mkSnowflakeId l m i) % 2 ^ 12 % 2 ^ 10 :=
    (Nat.mod_mod_of_dvd _ (by norm_num)).symm
  rw [h1, pattern_mod_4096 l m i hi]
  omega

/-- C3: constructing from `"102.65.2.123"` yields `machine_bits = 635`, and
one `generate()` call returns an id whose decoded machine field is `635` and
decoded sequence is `1`, whatever the construction-time clock reading. -/
theorem claim_C3 (now : Int) (clock : Clock) (fuel t : Nat) :
    ∃ g id g' t',
      new_from_ip now "102.65.2.123".data = some g ∧
      g.machine_bits = 635 ∧
      generate clock fuel g t = some (id, g', t') ∧
      g'.idx = 1 ∧
      (reverse (u64ofI64 id)).machine_bits = 635 ∧
      (reverse (u64ofI64 id)).idx = 1 := by
  refine ⟨⟨now, 635, 0⟩, mkSnowflakeId now 635 1, ⟨now, 635, 1⟩, t, rfl, rfl, ?_, rfl, ?_, ?_⟩
  · have h := @generate_nonwrap clock fuel ⟨now, 635, 0⟩ t
      (show idxStep 0 ≠ 0 by decide)
    simpa using h
  · rw [pack_pattern now 635 1 (by norm_num) (by norm_num) (by norm_num)]
    have e : ((635 : Int)).toNat = 635 := rfl
    rw [e, reverse_add _ 635 1 (by norm_num) (by norm_num)]
    norm_num
  · rw [pack_pattern now 635 1 (by norm_num) (by norm_num) (by norm_num)]
    have e : ((635 : Int)).toNat = 635 := rfl
    rw [e, reverse_add _ 635 1 (by norm_num) (by norm_num)]

end Snow

namespace Snow

/-- C10: `idx` is `0` after construction and stays below `2048` across every
call of every strategy; consequently the `u16` increment `idx + 1` cannot
overflow and the packed sequence fits in 11 bits. -/
theorem claim_C10 :
    (∀ now ip g, new_from_ip now ip = some g → g.idx < 2048) ∧
    (∀ clock fuel s g t id g' t', g.idx < 2048 →
      stepGen clock fuel s g t = some (id, g', t') →
      g.idx + 1 < 65536 ∧ g'.idx < 2048 ∧ g'.idx < 2 ^ 11) := by
  constructor
  · intro now ip g h
    simp only [new_from_ip] at h
    split at h
    · split at h
      · rename_i heq
        simp only [Option.some.injEq] at h
        subst h
        show (0 : Nat) < 2048
        norm_num
      · exact absurd h (by simp)
    · exact absurd h (by simp)
  · intro clock fuel s g t id g' t' hidx hstep
    obtain ⟨-, -, h3⟩ := stepGen_cases hstep
    refine ⟨by omega, ?_, ?_⟩ <;>
      rcases h3 with h3 | h3 <;> rw [h3] <;>
        first
          | exact idxStep_lt g.idx
          | norm_num

theorem claim_C10_witness :
    ((⟨7, 635, 0⟩ : SnowflakeIdGenerator)).idx < 2048 ∧
    ((⟨7, 635, 0⟩ : SnowflakeIdGenerator)).idx + 1 < 65536 ∧
    ((⟨7, 635, 1⟩ : SnowflakeIdGenerator)).idx < 2048 ∧
    ((⟨7, 635, 1⟩ : SnowflakeIdGenerator)).idx < 2 ^ 11 := by
  refine ⟨?_, ?_⟩
  · exact claim_C10.1 7 "102.65.2.123".data ⟨7, 635, 0⟩ (by decide)
  · exact claim_C10.2 (fun _ => 0) 1 Strategy.basic ⟨7, 635, 0⟩ 0
      (mkSnowflakeId 7 635 1) ⟨7, 635, 1⟩ 0 (by decide) (by decide)

/-- C8: whenever some later clock reading strictly exceeds the argument, the
busy-wait terminates (some fuel suffices) and returns the first reading that
strictly exceeds the argument; in particular the result is strictly greater
than the argument. -/
theorem claim_C8 (clock : Clock) (fl : Int) (t : Nat)
    (h : ∃ k, fl < clock (t + k)) :
    ∃ k, (∀ j, j < k → clock (t + j) ≤ fl) ∧ fl < clock (t + k) ∧
      ∀ fuel, k < fuel →
        biding_time_conditions clock fl t fuel = some (clock (t + k), t + k + 1) := by
  refine ⟨Nat.find h, fun j hj => not_lt.mp (Nat.find_min h hj), Nat.find_spec h, ?_⟩
  intro fuel hf
  exact biding_spec t _ fuel (fun j hj => not_lt.mp (Nat.find_min h hj))
    (Nat.find_spec h) hf

theorem claim_C8_witness :
    (∃ k, (5 : Int) < (fun s : Nat => (s : Int)) (0 + k)) ∧
    (∃ k, (∀ j, j < k → (fun s : Nat => (s : Int)) (0 + j) ≤ 5) ∧
      (5 : Int) < (fun s : Nat => (s : Int)) (0 + k) ∧
      ∀ fuel, k < fuel →
        biding_time_conditions (fun s : Nat => (s : Int)) 5 0 fuel =
          some ((fun s : Nat => (s : Int)) (0 + k), 0 + k + 1)) :=
  ⟨⟨6, by norm_num⟩, claim_C8 (fun s : Nat => (s : Int)) 5 0 ⟨6, by norm_num⟩⟩

end Snow

namespace Snow

/-- C7 (amended): when the fresh reading differs from the stored
`last_time_millis`, the call adopts it and resets `idx` to `0`
unconditionally, and the returned id's decoded sequence field is `0`; the
decoded timestamp field equals the fresh reading provided the reading lies in
`[0, 2 ^ 41)` and `machine_bits` in `[0, 2 ^ 10)`. -/
theorem claim_C7 (clock : Clock) (fuel : Nat) (g : SnowflakeIdGenerator) (t : Nat)
    (hne : clock t ≠ g.last_time_millis) :
    real_time_generate clock fuel g t =
      some (mkSnowflakeId (clock t) g.machine_bits 0,
        ⟨clock t, g.machine_bits, 0⟩, t + 1) ∧
    (reverse (u64ofI64 (mkSnowflakeId (clock t) g.machine_bits 0))).idx = 0 ∧
    (0 ≤ g.machine_bits → g.machine_bits < 2 ^ 10 → 0 ≤ clock t → clock t < 2 ^ 41 →
      (reverse (u64ofI64 (mkSnowflakeId (clock t) g.machine_bits 0))).timestamp =
        clock t) := by
  refine ⟨real_time_generate_ne hne, ?_, ?_⟩
  · rw [reverse_idx_mk (clock t) g.machine_bits 0 (by norm_num)]
    norm_num
  · intro hm hm2 hc0 hc1
    rw [reverse_mkSnowflakeId (clock t) g.machine_bits 0 hc0 hc1 hm hm2 (by norm_num)]

theorem claim_C7_cex :
    ((fun _ : Nat => (2 ^ 41 : Int)) 0 ≠
        (⟨0, 635, 0⟩ : SnowflakeIdGenerator).last_time_millis ∧
      real_time_generate (fun _ => (2 ^ 41 : Int)) 1 ⟨0, 635, 0⟩ 0 =
        some (mkSnowflakeId (2 ^ 41) 635 0, ⟨2 ^ 41, 635, 0⟩, 1) ∧
      (reverse (u64ofI64 (mkSnowflakeId (2 ^ 41) 635 0))).timestamp = 0 ∧
      (0 : Int) ≠ 2 ^ 41) ∧
    ((fun _ : Nat => (2 : Int)) 0 ≠
        (⟨0, 1024, 0⟩ : SnowflakeIdGenerator).last_time_millis ∧
      real_time_generate (fun _ => (2 : Int)) 1 ⟨0, 1024, 0⟩ 0 =
        some (mkSnowflakeId 2 1024 0, ⟨2, 1024, 0⟩, 1) ∧
      (reverse (u64ofI64 (mkSnowflakeId 2 1024 0))).timestamp = 3 ∧
      (3 : Int) ≠ 2) := by decide

theorem claim_C7_witness :
    real_time_generate (fun _ : Nat => (7 : Int)) 1 ⟨5, 635, 0⟩ 0 =
      some (mkSnowflakeId 7 635 0, ⟨7, 635, 0⟩, 1) ∧
    (reverse (u64ofI64 (mkSnowflakeId 7 635 0))).idx = 0 ∧
    (0 ≤ (⟨5, 635, 0⟩ : SnowflakeIdGenerator).machine_bits →
      (⟨5, 635, 0⟩ : SnowflakeIdGenerator).machine_bits < 2 ^ 10 →
      0 ≤ (7 : Int) → (7 : Int) < 2 ^ 41 →
      (reverse (u64ofI64 (mkSnowflakeId 7 635 0))).timestamp = 7) :=
  claim_C7 (fun _ => (7 : Int)) 1 ⟨5, 635, 0⟩ 0 (by norm_num)

/-- C1 (amended): every id returned by any strategy call packs the post-call
state, and `reverse` recovers the post-call `last_time_millis`, the machine
bits and the post-call `idx` exactly whenever the post-call timestamp lies in
`[0, 2 ^ 41)`, the machine bits in `[0, 2 ^ 10)` and the post-call `idx` in
`[0, 2 ^ 10)`; for post-call `idx` in `[2 ^ 10, 2048)` bit 10 is lost. -/
theorem claim_C1 (clock : Clock) (fuel : Nat) (s : Strategy)
    (g : SnowflakeIdGenerator) (t : Nat) (id : Int) (g' : SnowflakeIdGenerator)
    (t' : Nat) (hstep : stepGen clock fuel s g t = some (id, g', t'))
    (hl : 0 ≤ g'.last_time_millis) (hl2 : g'.last_time_millis < 2 ^ 41)
    (hm : 0 ≤ g.machine_bits) (hm2 : g.machine_bits < 2 ^ 10)
    (hi : g'.idx < 2 ^ 10) :
    reverse (u64ofI64 id) = ⟨g'.last_time_millis, g.machine_bits, g'.idx⟩ := by
  obtain ⟨h1, h2, -⟩ := stepGen_cases hstep
  subst h1
  rw [h2]
  exact reverse_mkSnowflakeId _ _ _ hl hl2 hm hm2 hi

theorem claim_C1_cex :
    (generate (fun _ => 0) 1 ⟨0, 635, 1023⟩ 0 =
        some (mkSnowflakeId 0 635 1024, ⟨0, 635, 1024⟩, 0) ∧
      (reverse (u64ofI64 (mkSnowflakeId 0 635 1024))).idx = 0 ∧
      (0 : Nat) ≠ 1024) ∧
    (generate (fun _ => 0) 1 ⟨2 ^ 41, 635, 0⟩ 0 =
        some (mkSnowflakeId (2 ^ 41) 635 1, ⟨2 ^ 41, 635, 1⟩, 0) ∧
      (reverse (u64ofI64 (mkSnowflakeId (2 ^ 41) 635 1))).timestamp = 0 ∧
      (0 : Int) ≠ 2 ^ 41) := by decide

theorem claim_C1_witness :
    reverse (u64ofI64 (mkSnowflakeId 5 635 1)) = ⟨5, 635, 1⟩ :=
  claim_C1 (fun _ => 0) 1 Strategy.basic ⟨5, 635, 0⟩ 0
    (mkSnowflakeId 5 635 1) ⟨5, 635, 1⟩ 0 (by decide) (by norm_num) (by norm_num)
    (by norm_num) (by norm_num) (by norm_num)

end Snow

namespace Snow

lemma wrap64_eq_self {z : Int} (h1 : -(2 ^ 63) ≤ z) (h2 : z < 2 ^ 63) :
    wrap64 z = z := by
  unfold wrap64
  omega

lemma lazyIter_add (a b : Nat) (g : SnowflakeIdGenerator) :
    lazyIter (a + b) g = lazyIter b (lazyIter a g) := by
  induction a generalizing g with
  | zero => simp [lazyIter]
  | succ a ih =>
    have e : a + 1 + b = (a + b) + 1 := by omega
    rw [e]
    show lazyIter (a + b) (lazy_generate g).2 = _
    rw [ih]
    rfl

lemma lazyIter_plateau (j : Nat) (g : SnowflakeIdGenerator)
    (hj : g.idx + j ≤ 2047) :
    lazyIter j g = ⟨g.last_time_millis, g.machine_bits, g.idx + j⟩ := by
  induction j generalizing g with
  | zero => simp [lazyIter]
  | succ j ih =>
    have hs : idxStep g.idx = g.idx + 1 := idxStep_of_lt (by omega)
    show lazyIter j (lazy_generate g).2 = _
    rw [lazy_generate_nonwrap (by omega : idxStep g.idx ≠ 0), hs]
    rw [ih ⟨g.last_time_millis, g.machine_bits, g.idx + 1⟩
      (by show g.idx + 1 + j ≤ 2047; omega)]
    congr 1
    show g.idx + 1 + j = g.idx + (j + 1)
    omega

lemma lazyIter_block (g : SnowflakeIdGenerator) (h0 : g.idx = 0) :
    lazyIter 2048 g = ⟨wrap64 (g.last_time_millis + 1), g.machine_bits, 0⟩ := by
  have e : (2048 : Nat) = 2047 + 1 := by norm_num
  rw [e, lazyIter_add, lazyIter_plateau 2047 g (by omega), h0]
  show lazyIter 0 (lazy_generate ⟨g.last_time_millis, g.machine_bits, 2047⟩).2 = _
  rw [lazy_generate_wrap (show idxStep 2047 = 0 from idxStep_2047)]
  rfl

/-- C5 (amended): from a state with `idx = 0`, `k * 2048` calls of
`lazy_generate` advance `last_time_millis` by exactly `k` and return `idx` to
`0`, with no clock access — provided the `i64` increments do not overflow. -/
theorem claim_C5 (g : SnowflakeIdGenerator) (k : Nat) (h0 : g.idx = 0)
    (hr : -(2 ^ 63) ≤ g.last_time_millis)
    (hk : g.last_time_millis + k ≤ 2 ^ 63 - 1) :
    lazyIter (k * 2048) g =
      ⟨g.last_time_millis + k, g.machine_bits, 0⟩ := by
  induction k generalizing g with
  | zero =>
    cases g
    simp only [lazyIter]
    simp_all
  | succ k ih =>
    have e : (k + 1) * 2048 = 2048 + k * 2048 := by ring
    rw [e, lazyIter_add, lazyIter_block g h0]
    have hw : wrap64 (g.last_time_millis + 1) = g.last_time_millis + 1 :=
      wrap64_eq_self (by omega) (by omega)
    rw [hw]
    rw [ih ⟨g.last_time_millis + 1, g.machine_bits, 0⟩ rfl
      (by show -(2 ^ 63) ≤ g.last_time_millis + 1; omega)
      (by show g.last_time_millis + 1 + (k : Int) ≤ 2 ^ 63 - 1; omega)]
    congr 1
    show g.last_time_millis + 1 + (k : Int) = g.last_time_millis + ((k : Nat) + 1 : Nat)
    push_cast
    ring

theorem claim_C5_cex :
    (⟨2 ^ 63 - 1, 0, 0⟩ : SnowflakeIdGenerator).idx = 0 ∧
    lazyIter (1 * 2048) ⟨2 ^ 63 - 1, 0, 0⟩ = ⟨-(2 ^ 63), 0, 0⟩ ∧
    (-(2 ^ 63) : Int) ≠ 2 ^ 63 - 1 + 1 := by
  refine ⟨rfl, ?_, by norm_num⟩
  rw [show (1 * 2048 : Nat) = 2048 from rfl,
    lazyIter_block ⟨2 ^ 63 - 1, 0, 0⟩ rfl]
  decide

theorem claim_C5_witness :
    lazyIter (3 * 2048) ⟨5, 635, 0⟩ = ⟨5 + (3 : Nat), 635, 0⟩ :=
  claim_C5 ⟨5, 635, 0⟩ 3 rfl (by norm_num) (by norm_num)

end Snow

namespace Snow

/-! ### Characterisation of the address parser -/

/-- Decimal value of a digit run (specification-level description). -/
def digitsToNat (l : List Char) : Nat :=
  l.foldl (fun a c => a * 10 + (c.toNat - 48)) 0

/-- Specification-level characterization of the strings accepted by Rust's
`i64` parser: an optional sign followed by a nonempty digit run whose value
fits the `i64` range — negative values included. -/
def validI64 : List Char → Bool
  | [] => false
  | c :: cs =>
    if c = '-' then
      !cs.isEmpty && cs.all Char.isDigit && decide (digitsToNat cs ≤ 2 ^ 63)
    else if c = '+' then
      !cs.isEmpty && cs.all Char.isDigit && decide (digitsToNat cs < 2 ^ 63)
    else
      (c :: cs).all Char.isDigit && decide (digitsToNat (c :: cs) < 2 ^ 63)

lemma isSome_if_some {α : Type} (P : Prop) [inst : Decidable P] (x : α) :
    (if P then some x else none).isSome = decide P := by
  split <;> simp_all

lemma digitsValAux_eq (l : List Char) (acc : Nat) :
    digitsValAux l acc =
      if l.all Char.isDigit then
        some (l.foldl (fun a c => a * 10 + (c.toNat - 48)) acc)
      else none := by
  induction l generalizing acc with
  | nil => simp [digitsValAux]
  | cons c cs ih =>
    by_cases hc : c.isDigit
    · simp [digitsValAux, hc, ih]
    · simp [digitsValAux, hc]

lemma digitsVal_eq (l : List Char) :
    digitsVal l =
      if !l.isEmpty && l.all Char.isDigit then some (digitsToNat l)
      else none := by
  cases l with
  | nil => simp [digitsVal]
  | cons c cs =>
    rw [show digitsVal (c :: cs) = digitsValAux (c :: cs) 0 from rfl,
      digitsValAux_eq]
    simp [digitsToNat]

lemma minus_branch (rest : List Char) :
    ((digitsVal rest).bind fun n =>
      if n ≤ 2 ^ 63 then some (-(n : Int)) else none).isSome =
      validI64 ('-' :: rest) := by
  rw [digitsVal_eq]
  by_cases h : !rest.isEmpty && rest.all Char.isDigit
  · rw [if_pos h]
    simp only [Option.some_bind]
    rw [isSome_if_some]
    simp [validI64, h]
  · rw [if_neg h]
    rw [Bool.not_eq_true] at h
    simp [validI64, h]

lemma plus_branch (rest : List Char) :
    ((digitsVal rest).bind fun n =>
      if n < 2 ^ 63 then some ((n : Int)) else none).isSome =
      validI64 ('+' :: rest) := by
  rw [digitsVal_eq]
  by_cases h : !rest.isEmpty && rest.all Char.isDigit
  · rw [if_pos h]
    simp only [Option.some_bind]
    rw [isSome_if_some]
    simp [validI64, h]
  · rw [if_neg h]
    rw [Bool.not_eq_true] at h
    simp [validI64, h]

lemma other_branch (c : Char) (cs : List Char) (hm : c ≠ '-') (hp : c ≠ '+') :
    ((digitsVal (c :: cs)).bind fun n =>
      if n < 2 ^ 63 then some ((n : Int)) else none).isSome =
      validI64 (c :: cs) := by
  rw [digitsVal_eq]
  by_cases h : !(c :: cs).isEmpty && (c :: cs).all Char.isDigit
  · rw [if_pos h]
    simp only [Option.some_bind]
    rw [isSome_if_some]
    simp only [validI64, if_neg hm, if_neg hp]
    simp only [Bool.and_eq_true] at h
    simp [h.2]
  · rw [if_neg h]
    rw [Bool.not_eq_true] at h
    simp only [validI64, if_neg hm, if_neg hp]
    simp only [Bool.and_eq_false_iff] at h
    rcases h with h | h
    · simp at h
    · simp [h]

end Snow

namespace Snow
lemma numerize_isSome_iff (s : List Char) :
    (numerize s).isSome = validI64 s := by
  unfold numerize parseI64
  split
  · rfl
  · exact minus_branch _
  · exact plus_branch _
  · rename_i x h1 h2 h3
    cases s with
    | nil => exact absurd rfl h1
    | cons c cs =>
      have hm : c ≠ '-' := fun hc => h2 cs (by rw [hc])
      have hp : c ≠ '+' := fun hc => h3 cs (by rw [hc])
      exact other_branch c cs hm hp
end Snow

namespace Snow

/-- C9 (amended): construction fails iff, after splitting on dots, positions
2 and 3 (0-indexed) are missing or fail to parse as signed 64-bit integers
(optional sign, nonempty digit run, within `i64` range); in particular a
negative component such as `"-5"` parses successfully, so construction does
not fail on it. -/
theorem claim_C9 (now : Int) (ip : List Char) :
    new_from_ip now ip = none ↔
      ¬ (∃ p2 p3, (splitOnDot ip)[2]? = some p2 ∧ (splitOnDot ip)[3]? = some p3 ∧
          validI64 p2 = true ∧ validI64 p3 = true) := by
  rcases e2 : (splitOnDot ip)[2]? with _ | p2 <;>
    rcases e3 : (splitOnDot ip)[3]? with _ | p3 <;>
      simp only [new_from_ip, e2, e3]
  · simp
  · simp
  · simp
  · have hv2 := numerize_isSome_iff p2
    have hv3 := numerize_isSome_iff p3
    rcases n2 : numerize p2 with _ | a <;> rcases n3 : numerize p3 with _ | b <;>
      rw [n2] at hv2 <;> rw [n3] at hv3 <;> simp at hv2 hv3 <;>
        simp [n2, n3, hv2, hv3]

theorem claim_C9_cex :
    numerize "-5".data = some (-5) ∧ (-5 : Int) < 0 ∧
    new_from_ip 7 "1.2.-5.4".data = some ⟨7, -1276, 0⟩ := by
  refine ⟨by decide, by norm_num, by decide⟩

end Snow

namespace Snow

/-- Under a non-decreasing clock whose pending readings dominate the stored
timestamp, one `generate` or `real_time_generate` call never decreases
`last_time_millis`, and the domination is preserved. -/
lemma step_mono {clock : Clock} {fuel : Nat} {s : Strategy}
    {g : SnowflakeIdGenerator} {t : Nat} {id : Int} {g' : SnowflakeIdGenerator}
    {t' : Nat} (hs : s = Strategy.basic ∨ s = Strategy.realTime)
    (hmono : ∀ a b, a ≤ b → clock a ≤ clock b)
    (hinv : ∀ u, t ≤ u → g.last_time_millis ≤ clock u)
    (hstep : stepGen clock fuel s g t = some (id, g', t')) :
    g.last_time_millis ≤ g'.last_time_millis ∧ t ≤ t' ∧
      ∀ u, t' ≤ u → g'.last_time_millis ≤ clock u := by
  rcases hs with rfl | rfl
  · replace hstep : generate clock fuel g t = some (id, g', t') := hstep
    by_cases hc : idxStep g.idx = 0
    · by_cases heq : clock t = g.last_time_millis
      · rcases hb : biding_time_conditions clock g.last_time_millis (t + 1) fuel
          with _ | ⟨r, t2⟩
        · rw [generate] at hstep
          simp [hc, heq, hb] at hstep
        · rw [generate_wrap_eq_some hc heq hb] at hstep
          simp only [Option.some.injEq, Prod.mk.injEq] at hstep
          obtain ⟨-, h2, h3⟩ := hstep
          subst h2; subst h3
          obtain ⟨sp, hsp1, hsp2, hsp3, hsp4⟩ := biding_some hb
          refine ⟨le_of_lt hsp4, by omega, ?_⟩
          intro u hu
          show r ≤ clock u
          rw [hsp3]
          exact hmono sp u (by omega)
      · rw [generate_wrap_ne hc heq] at hstep
        simp only [Option.some.injEq, Prod.mk.injEq] at hstep
        obtain ⟨-, h2, h3⟩ := hstep
        subst h2; subst h3
        refine ⟨hinv t (le_refl t), by omega, ?_⟩
        intro u hu
        show clock t ≤ clock u
        exact hmono t u (by omega)
    · rw [generate_nonwrap hc] at hstep
      simp only [Option.some.injEq, Prod.mk.injEq] at hstep
      obtain ⟨-, h2, h3⟩ := hstep
      subst h2; subst h3
      exact ⟨le_refl _, le_refl _, hinv⟩
  · replace hstep : real_time_generate clock fuel g t = some (id, g', t') := hstep
    by_cases heq : clock t = g.last_time_millis
    · by_cases hc : idxStep g.idx = 0
      · rcases hb : biding_time_conditions clock g.last_time_millis (t + 1) fuel
          with _ | ⟨r, t2⟩
        · rw [real_time_generate] at hstep
          simp [hc, heq, hb] at hstep
        · rw [real_time_generate_eq_wrap_some heq hc hb] at hstep
          simp only [Option.some.injEq, Prod.mk.injEq] at hstep
          obtain ⟨-, h2, h3⟩ := hstep
          subst h2; subst h3
          obtain ⟨sp, hsp1, hsp2, hsp3, hsp4⟩ := biding_some hb
          refine ⟨le_of_lt hsp4, by omega, ?_⟩
          intro u hu
          show r ≤ clock u
          rw [hsp3]
          exact hmono sp u (by omega)
      · rw [real_time_generate_eq_nonwrap heq hc] at hstep
        simp only [Option.some.injEq, Prod.mk.injEq] at hstep
        obtain ⟨-, h2, h3⟩ := hstep
        subst h2; subst h3
        exact ⟨le_refl _, by omega, fun u hu => hinv u (by omega)⟩
    · rw [real_time_generate_ne heq] at hstep
      simp only [Option.some.injEq, Prod.mk.injEq] at hstep
      obtain ⟨-, h2, h3⟩ := hstep
      subst h2; subst h3
      refine ⟨hinv t (le_refl t), by omega, ?_⟩
      intro u hu
      show clock t ≤ clock u
      exact hmono t u (by omega)

end Snow

namespace Snow

/-- C2 (amended): across any sequence of `generate` / `real_time_generate`
calls on one instance, the stored `last_time_millis` is non-decreasing,
provided the clock stream is non-decreasing and its pending readings are not
below the initial `last_time_millis`. -/
theorem claim_C2 (clock : Clock) (fuel : Nat) (ops : List Strategy)
    (g : SnowflakeIdGenerator) (t : Nat)
    (res : List (Int × SnowflakeIdGenerator) × SnowflakeIdGenerator × Nat)
    (hops : ∀ o ∈ ops, o = Strategy.basic ∨ o = Strategy.realTime)
    (hmono : ∀ a b, a ≤ b → clock a ≤ clock b)
    (hinit : ∀ u, t ≤ u → g.last_time_millis ≤ clock u)
    (hrun : runGen clock fuel ops g t = some res) :
    List.Chain (fun a b : Int => a ≤ b) g.last_time_millis
      (res.1.map fun p => p.2.last_time_millis) := by
  induction ops generalizing g t res with
  | nil =>
    rw [runGen] at hrun
    simp only [Option.some.injEq] at hrun
    subst hrun
    exact List.Chain.nil
  | cons s rest ih =>
    rw [runGen] at hrun
    rcases hstep : stepGen clock fuel s g t with _ | ⟨id, g1, t1⟩ <;>
      rw [hstep] at hrun <;> dsimp only at hrun
    · exact absurd hrun (by simp)
    · rcases hrun2 : runGen clock fuel rest g1 t1 with _ | ⟨l, gf, tf⟩ <;>
        rw [hrun2] at hrun <;> dsimp only at hrun
      · exact absurd hrun (by simp)
      · simp only [Option.some.injEq] at hrun
        subst hrun
        obtain ⟨hle, -, hinv1⟩ :=
          step_mono (hops s (by simp)) hmono hinit hstep
        simp only [List.map_cons]
        exact List.Chain.cons hle
          (ih g1 t1 (l, gf, tf) (fun o ho => hops o (by simp [ho])) hinv1 hrun2)

theorem claim_C2_cex :
    (runGen (fun _ => (50 : Int)) 1 [Strategy.realTime] ⟨100, 635, 0⟩ 0 =
        some ([(mkSnowflakeId 50 635 0, ⟨50, 635, 0⟩)], ⟨50, 635, 0⟩, 1) ∧
      ¬ ((100 : Int) ≤ 50)) ∧
    ((∀ a b : Nat, a ≤ b →
        (fun s : Nat => if s = 0 then (2 ^ 41 - 1 : Int) else 2 ^ 41) a ≤
          (fun s : Nat => if s = 0 then (2 ^ 41 - 1 : Int) else 2 ^ 41) b) ∧
      runGen (fun s : Nat => if s = 0 then (2 ^ 41 - 1 : Int) else 2 ^ 41) 1
          [Strategy.realTime, Strategy.realTime] ⟨2 ^ 41 - 1, 635, 0⟩ 0 =
        some ([(mkSnowflakeId (2 ^ 41 - 1) 635 1, ⟨2 ^ 41 - 1, 635, 1⟩),
            (mkSnowflakeId (2 ^ 41) 635 0, ⟨2 ^ 41, 635, 0⟩)],
          ⟨2 ^ 41, 635, 0⟩, 2) ∧
      (reverse (u64ofI64 (mkSnowflakeId (2 ^ 41 - 1) 635 1))).timestamp =
        2 ^ 41 - 1 ∧
      (reverse (u64ofI64 (mkSnowflakeId (2 ^ 41) 635 0))).timestamp = 0 ∧
      ¬ ((2 ^ 41 - 1 : Int) ≤ 0)) := by
  refine ⟨⟨by decide, by norm_num⟩, ⟨?_, by decide, by decide, by decide, by norm_num⟩⟩
  intro a b hab
  by_cases ha : a = 0 <;> by_cases hb : b = 0 <;> simp [ha, hb] <;> omega

theorem claim_C2_witness :
    List.Chain (fun a b : Int => a ≤ b)
      ((⟨5, 635, 0⟩ : SnowflakeIdGenerator)).last_time_millis
      (([(mkSnowflakeId 5 635 1, (⟨5, 635, 1⟩ : SnowflakeIdGenerator)),
          (mkSnowflakeId 5 635 2, (⟨5, 635, 2⟩ : SnowflakeIdGenerator))],
        (⟨5, 635, 2⟩ : SnowflakeIdGenerator), 1).1.map
        fun p => p.2.last_time_millis) :=
  claim_C2 (fun _ => (5 : Int)) 1 [Strategy.basic, Strategy.realTime] ⟨5, 635, 0⟩ 0
    ([(mkSnowflakeId 5 635 1, ⟨5, 635, 1⟩), (mkSnowflakeId 5 635 2, ⟨5, 635, 2⟩)],
      ⟨5, 635, 2⟩, 1)
    (by decide) (fun a b h => le_refl 5) (fun u hu => le_refl 5) (by decide)

end Snow

namespace Snow

lemma runGen_append (clock : Clock) (fuel : Nat) (l1 l2 : List Strategy)
    (g : SnowflakeIdGenerator) (t : Nat) :
    runGen clock fuel (l1 ++ l2) g t =
      (runGen clock fuel l1 g t).bind fun r =>
        (runGen clock fuel l2 r.2.1 r.2.2).map fun q => (r.1 ++ q.1, q.2) := by
  induction l1 generalizing g t with
  | nil =>
    rw [List.nil_append, runGen]
    simp only [Option.some_bind]
    rcases h : runGen clock fuel l2 g t with _ | ⟨l, gf, tf⟩ <;> simp
  | cons s rest ih =>
    rw [List.cons_append, runGen, runGen]
    rcases hstep : stepGen clock fuel s g t with _ | ⟨id, g1, t1⟩
    · simp
    · dsimp only
      rw [ih g1 t1]
      rcases h1 : runGen clock fuel rest g1 t1 with _ | ⟨l, gf, tf⟩
      · simp
      · simp only [Option.some_bind]
        rcases h2 : runGen clock fuel l2 gf tf with _ | ⟨l', gf', tf'⟩ <;> simp

/-- The ids and post-states of a run of `basic` calls inside one plateau
(no `idx` wrap). -/
def basicPlateauList : SnowflakeIdGenerator → Nat → List (Int × SnowflakeIdGenerator)
  | _, 0 => []
  | g, n + 1 =>
    (mkSnowflakeId g.last_time_millis g.machine_bits (g.idx + 1),
      ⟨g.last_time_millis, g.machine_bits, g.idx + 1⟩) ::
      basicPlateauList ⟨g.last_time_millis, g.machine_bits, g.idx + 1⟩ n

lemma basicPlateauList_length : ∀ (n : Nat) (g : SnowflakeIdGenerator),
    (basicPlateauList g n).length = n
  | 0, _ => rfl
  | n + 1, g => by
    rw [basicPlateauList, List.length_cons, basicPlateauList_length n]

lemma runGen_basic_plateau (clock : Clock) (fuel : Nat) :
    ∀ (n : Nat) (g : SnowflakeIdGenerator) (t : Nat), g.idx + n ≤ 2047 →
    runGen clock fuel (List.replicate n Strategy.basic) g t =
      some (basicPlateauList g n,
        ⟨g.last_time_millis, g.machine_bits, g.idx + n⟩, t) := by
  intro n
  induction n with
  | zero =>
    intro g t hn
    rw [List.replicate_zero, runGen, basicPlateauList]
    cases g
    rfl
  | succ n ih =>
    intro g t hn
    rw [List.replicate_succ, runGen]
    have hs : idxStep g.idx = g.idx + 1 := idxStep_of_lt (by omega)
    have hstep : stepGen clock fuel Strategy.basic g t =
        some (mkSnowflakeId g.last_time_millis g.machine_bits (g.idx + 1),
          ⟨g.last_time_millis, g.machine_bits, g.idx + 1⟩, t) := by
      have h := @generate_nonwrap clock fuel g t (by omega : idxStep g.idx ≠ 0)
      rw [hs] at h
      exact h
    rw [hstep]
    dsimp only
    rw [ih ⟨g.last_time_millis, g.machine_bits, g.idx + 1⟩ t
      (by show g.idx + 1 + n ≤ 2047; omega)]
    dsimp only
    rw [basicPlateauList]
    have e : g.idx + 1 + n = g.idx + (n + 1) := by omega
    rw [e]

end Snow

namespace Snow

/-- A full-capacity `generate` burst plus one more call, from a fresh plateau
(`idx = 0`) with the clock still equal to the stored timestamp at the wrap:
2047 plateau calls, the wrap call that busy-waits to `r`, and one call on the
new plateau. -/
lemma basic_capacity_run (clock : Clock) (fuel : Nat) (g : SnowflakeIdGenerator)
    (t : Nat) (r : Int) (t2 : Nat) (hidx : g.idx = 0)
    (heq : clock t = g.last_time_millis)
    (hb : biding_time_conditions clock g.last_time_millis (t + 1) fuel =
      some (r, t2)) :
    runGen clock fuel (List.replicate 2049 Strategy.basic) g t =
      some (basicPlateauList g 2047 ++
          [(mkSnowflakeId r g.machine_bits 0, ⟨r, g.machine_bits, 0⟩),
           (mkSnowflakeId r g.machine_bits 1, ⟨r, g.machine_bits, 1⟩)],
        ⟨r, g.machine_bits, 1⟩, t2) := by
  have esplit : (2049 : Nat) = 2047 + 2 := by norm_num
  rw [esplit, List.replicate_add, runGen_append,
    runGen_basic_plateau clock fuel 2047 g t (by omega)]
  simp only [Option.some_bind]
  have hg1 : g.idx + 2047 = 2047 := by omega
  rw [hg1]
  have hwrap : stepGen clock fuel Strategy.basic
      ⟨g.last_time_millis, g.machine_bits, 2047⟩ t =
      some (mkSnowflakeId r g.machine_bits 0, ⟨r, g.machine_bits, 0⟩, t2) :=
    generate_wrap_eq_some (show idxStep 2047 = 0 from idxStep_2047) heq hb
  have hlast : stepGen clock fuel Strategy.basic ⟨r, g.machine_bits, 0⟩ t2 =
      some (mkSnowflakeId r g.machine_bits 1, ⟨r, g.machine_bits, 1⟩, t2) := by
    have h := @generate_nonwrap clock fuel ⟨r, g.machine_bits, 0⟩ t2
      (show idxStep 0 ≠ 0 by decide)
    exact h
  rw [show List.replicate 2 Strategy.basic = [Strategy.basic, Strategy.basic] from rfl,
    runGen, hwrap]
  dsimp only
  rw [runGen, hlast]
  dsimp only
  rw [runGen]
  rfl

lemma basic_capacity_run_none (clock : Clock) (fuel : Nat)
    (g : SnowflakeIdGenerator) (t : Nat) (hidx : g.idx = 0)
    (heq : clock t = g.last_time_millis)
    (hb : biding_time_conditions clock g.last_time_millis (t + 1) fuel = none) :
    runGen clock fuel (List.replicate 2049 Strategy.basic) g t = none := by
  have esplit : (2049 : Nat) = 2047 + 2 := by norm_num
  rw [esplit, List.replicate_add, runGen_append,
    runGen_basic_plateau clock fuel 2047 g t (by omega)]
  simp only [Option.some_bind]
  have hg1 : g.idx + 2047 = 2047 := by omega
  rw [hg1]
  have hwrap : stepGen clock fuel Strategy.basic
      ⟨g.last_time_millis, g.machine_bits, 2047⟩ t = none := by
    show generate clock fuel ⟨g.last_time_millis, g.machine_bits, 2047⟩ t = none
    rw [generate]
    simp [show idxStep 2047 = 0 from idxStep_2047, heq, hb]
  rw [show List.replicate 2 Strategy.basic = [Strategy.basic, Strategy.basic] from rfl,
    runGen, hwrap]
  rfl

end Snow

namespace Snow

/-- C6 (amended): from a fresh plateau (`idx = 0`) with the clock reading
still equal to the stored timestamp, after 2048 `generate` calls the 2049-th
call's id carries a strictly larger decoded timestamp than the first call's
id — provided every clock reading lies in `[0, 2 ^ 41)` and `machine_bits`
lies in `[0, 2 ^ 10)`. -/
theorem claim_C6 (clock : Clock) (fuel : Nat) (g : SnowflakeIdGenerator)
    (t : Nat) (res : List (Int × SnowflakeIdGenerator) × SnowflakeIdGenerator × Nat)
    (hidx : g.idx = 0) (heq : clock t = g.last_time_millis)
    (hcb : ∀ u, 0 ≤ clock u ∧ clock u < 2 ^ 41)
    (hm : 0 ≤ g.machine_bits) (hm2 : g.machine_bits < 2 ^ 10)
    (hrun : runGen clock fuel (List.replicate 2049 Strategy.basic) g t = some res) :
    ∃ id1 idN,
      (res.1.map Prod.fst)[0]? = some id1 ∧
      (res.1.map Prod.fst)[2048]? = some idN ∧
      (reverse (u64ofI64 id1)).timestamp < (reverse (u64ofI64 idN)).timestamp := by
  rcases hb : biding_time_conditions clock g.last_time_millis (t + 1) fuel
    with _ | ⟨r, t2⟩
  · rw [basic_capacity_run_none clock fuel g t hidx heq hb] at hrun
    exact absurd hrun (by simp)
  · rw [basic_capacity_run clock fuel g t r t2 hidx heq hb] at hrun
    simp only [Option.some.injEq] at hrun
    subst hrun
    refine ⟨mkSnowflakeId g.last_time_millis g.machine_bits 1,
      mkSnowflakeId r g.machine_bits 1, ?_, ?_, ?_⟩
    · rw [show (2047 : Nat) = 2046 + 1 from rfl, basicPlateauList, hidx]
      simp
    · rw [List.map_append]
      rw [List.getElem?_append_right
        (by simp [basicPlateauList_length] : 2048 ≥ (List.map Prod.fst (basicPlateauList g 2047)).length)]
      simp [basicPlateauList_length]
    · obtain ⟨sp, hsp1, hsp2, hsp3, hsp4⟩ := biding_some hb
      have hlb : 0 ≤ g.last_time_millis ∧ g.last_time_millis < 2 ^ 41 := by
        have := hcb t
        rw [heq] at this
        exact this
      have hrb : 0 ≤ r ∧ r < 2 ^ 41 := by
        rw [hsp3]
        exact hcb sp
      rw [reverse_mkSnowflakeId g.last_time_millis g.machine_bits 1 hlb.1 hlb.2
          hm hm2 (by norm_num),
        reverse_mkSnowflakeId r g.machine_bits 1 hrb.1 hrb.2 hm hm2 (by norm_num)]
      exact hsp4

end Snow

namespace Snow

theorem claim_C6_cex :
    (∃ res, runGen (fun s : Nat => if s = 0 then (2 ^ 41 - 1 : Int) else 2 ^ 41) 1
        (List.replicate 2049 Strategy.basic) ⟨2 ^ 41 - 1, 635, 0⟩ 0 = some res ∧
      (res.1.map Prod.fst)[0]? = some (mkSnowflakeId (2 ^ 41 - 1) 635 1) ∧
      (res.1.map Prod.fst)[2048]? = some (mkSnowflakeId (2 ^ 41) 635 1) ∧
      ¬ ((reverse (u64ofI64 (mkSnowflakeId (2 ^ 41 - 1) 635 1))).timestamp <
          (reverse (u64ofI64 (mkSnowflakeId (2 ^ 41) 635 1))).timestamp)) ∧
    (∃ res, runGen (fun s : Nat => if s = 0 then (2 : Int) else 3) 1
        (List.replicate 2049 Strategy.basic) ⟨2, 1024, 0⟩ 0 = some res ∧
      (res.1.map Prod.fst)[0]? = some (mkSnowflakeId 2 1024 1) ∧
      (res.1.map Prod.fst)[2048]? = some (mkSnowflakeId 3 1024 1) ∧
      ¬ ((reverse (u64ofI64 (mkSnowflakeId 2 1024 1))).timestamp <
          (reverse (u64ofI64 (mkSnowflakeId 3 1024 1))).timestamp)) := by
  constructor
  · refine ⟨_, basic_capacity_run _ 1 ⟨2 ^ 41 - 1, 635, 0⟩ 0 (2 ^ 41) 2 rfl (by decide)
      (by decide), ?_, ?_, by decide⟩
    · rw [show (2047 : Nat) = 2046 + 1 from rfl, basicPlateauList]
      simp
    · rw [List.map_append]
      rw [List.getElem?_append_right
        (by simp [basicPlateauList_length] :
          2048 ≥ (List.map Prod.fst (basicPlateauList
            (⟨2 ^ 41 - 1, 635, 0⟩ : SnowflakeIdGenerator) 2047)).length)]
      simp [basicPlateauList_length]
  · refine ⟨_, basic_capacity_run _ 1 ⟨2, 1024, 0⟩ 0 3 2 rfl (by decide)
      (by decide), ?_, ?_, by decide⟩
    · rw [show (2047 : Nat) = 2046 + 1 from rfl, basicPlateauList]
      simp
    · rw [List.map_append]
      rw [List.getElem?_append_right
        (by simp [basicPlateauList_length] :
          2048 ≥ (List.map Prod.fst (basicPlateauList
            (⟨2, 1024, 0⟩ : SnowflakeIdGenerator) 2047)).length)]
      simp [basicPlateauList_length]

/-- Concrete run result used to instantiate the C6 statement. -/
def c6WitnessRes : List (Int × SnowflakeIdGenerator) × SnowflakeIdGenerator × Nat :=
  (basicPlateauList ⟨5, 635, 0⟩ 2047 ++
    [(mkSnowflakeId 6 635 0, ⟨6, 635, 0⟩), (mkSnowflakeId 6 635 1, ⟨6, 635, 1⟩)],
    ⟨6, 635, 1⟩, 2)

theorem claim_C6_witness :
    ∃ id1 idN,
      (c6WitnessRes.1.map Prod.fst)[0]? = some id1 ∧
      (c6WitnessRes.1.map Prod.fst)[2048]? = some idN ∧
      (reverse (u64ofI64 id1)).timestamp < (reverse (u64ofI64 idN)).timestamp :=
  claim_C6 (fun s : Nat => if s = 0 then (5 : Int) else 6) 1 ⟨5, 635, 0⟩ 0
    c6WitnessRes rfl (by decide)
    (fun u => by
      cases u with
      | zero => exact ⟨by norm_num, by norm_num⟩
      | succ n => exact ⟨by simp, by simp⟩)
    (by norm_num) (by norm_num)
    (basic_capacity_run _ 1 ⟨5, 635, 0⟩ 0 6 2 rfl (by decide) (by decide))

end Snow

namespace Snow

/-! ### Uniqueness within a capacity burst -/

lemma mkSnowflakeId_ne_of_idx_ne (l1 m1 l2 m2 : Int) (i1 i2 : Nat)
    (hi1 : i1 < 2 ^ 12) (hi2 : i2 < 2 ^ 12) (hne : i1 ≠ i2) :
    mkSnowflakeId l1 m1 i1 ≠ mkSnowflakeId l2 m2 i2 := by
  intro h
  apply hne
  have h2 := congrArg (fun z => u64ofI64 z % 2 ^ 12) h
  dsimp only at h2
  rw [pattern_mod_4096 _ _ _ hi1, pattern_mod_4096 _ _ _ hi2] at h2
  exact h2

lemma mkSnowflakeId_ne_of_key_ne (l1 l2 m : Int) (i1 i2 : Nat)
    (hb1 : 0 ≤ l1) (hb1' : l1 < 2 ^ 41) (hb2 : 0 ≤ l2) (hb2' : l2 < 2 ^ 41)
    (hm : 0 ≤ m) (hm' : m < 2 ^ 10) (hi1 : i1 < 2048) (hi2 : i2 < 2048)
    (hkey : l1 * 2048 + (i1 : Int) ≠ l2 * 2048 + (i2 : Int)) :
    mkSnowflakeId l1 m i1 ≠ mkSnowflakeId l2 m i2 := by
  intro h
  apply hkey
  have h2 := congrArg u64ofI64 h
  rw [pack_pattern l1 m i1 hm hm' (by omega),
    pack_pattern l2 m i2 hm hm' (by omega)] at h2
  have e1 : l1 % 2 ^ 42 = l1 := Int.emod_eq_of_lt hb1 (by omega)
  have e2 : l2 % 2 ^ 42 = l2 := Int.emod_eq_of_lt hb2 (by omega)
  rw [e1, e2] at h2
  omega

lemma run_ids {clock : Clock} {fuel : Nat} :
    ∀ {ops : List Strategy} {g : SnowflakeIdGenerator} {t : Nat} {res},
    runGen clock fuel ops g t = some res →
    ∀ p ∈ res.1, p.1 = mkSnowflakeId p.2.last_time_millis p.2.machine_bits p.2.idx := by
  intro ops
  induction ops with
  | nil =>
    intro g t res h
    rw [runGen] at h
    simp only [Option.some.injEq] at h
    subst h
    intro p hp
    exact absurd hp (by simp)
  | cons s rest ih =>
    intro g t res h
    rw [runGen] at h
    rcases hstep : stepGen clock fuel s g t with _ | ⟨id, g1, t1⟩ <;>
      rw [hstep] at h <;> dsimp only at h
    · exact absurd h (by simp)
    · rcases h2 : runGen clock fuel rest g1 t1 with _ | ⟨l, gf, tf⟩ <;>
        rw [h2] at h <;> dsimp only at h
      · exact absurd h (by simp)
      · simp only [Option.some.injEq] at h
        subst h
        intro p hp
        rcases List.mem_cons.mp hp with rfl | hp
        · exact (stepGen_cases hstep).1
        · exact ih h2 p hp

lemma run_machine {clock : Clock} {fuel : Nat} :
    ∀ {ops : List Strategy} {g : SnowflakeIdGenerator} {t : Nat} {res},
    runGen clock fuel ops g t = some res →
    ∀ p ∈ res.1, p.2.machine_bits = g.machine_bits := by
  intro ops
  induction ops with
  | nil =>
    intro g t res h
    rw [runGen] at h
    simp only [Option.some.injEq] at h
    subst h
    intro p hp
    exact absurd hp (by simp)
  | cons s rest ih =>
    intro g t res h
    rw [runGen] at h
    rcases hstep : stepGen clock fuel s g t with _ | ⟨id, g1, t1⟩ <;>
      rw [hstep] at h <;> dsimp only at h
    · exact absurd h (by simp)
    · rcases h2 : runGen clock fuel rest g1 t1 with _ | ⟨l, gf, tf⟩ <;>
        rw [h2] at h <;> dsimp only at h
      · exact absurd h (by simp)
      · simp only [Option.some.injEq] at h
        subst h
        intro p hp
        rcases List.mem_cons.mp hp with rfl | hp
        · exact (stepGen_cases hstep).2.1
        · rw [ih h2 p hp]
          exact (stepGen_cases hstep).2.1

lemma step_idx_basic_lazy {clock : Clock} {fuel : Nat} {s : Strategy}
    {g : SnowflakeIdGenerator} {t : Nat} {id : Int} {g' : SnowflakeIdGenerator}
    {t' : Nat} (hs : s = Strategy.basic ∨ s = Strategy.lazy)
    (h : stepGen clock fuel s g t = some (id, g', t')) :
    g'.idx = idxStep g.idx := by
  rcases hs with rfl | rfl
  · replace h : generate clock fuel g t = some (id, g', t') := h
    by_cases hc : idxStep g.idx = 0
    · by_cases heq : clock t = g.last_time_millis
      · rcases hb : biding_time_conditions clock g.last_time_millis (t + 1) fuel
          with _ | ⟨r, t2⟩
        · rw [generate] at h
          simp [hc, heq, hb] at h
        · rw [generate_wrap_eq_some hc heq hb] at h
          simp only [Option.some.injEq, Prod.mk.injEq] at h
          rw [← h.2.1]
          exact hc.symm
      · rw [generate_wrap_ne hc heq] at h
        simp only [Option.some.injEq, Prod.mk.injEq] at h
        rw [← h.2.1]
        exact hc.symm
    · rw [generate_nonwrap hc] at h
      simp only [Option.some.injEq, Prod.mk.injEq] at h
      rw [← h.2.1]
  · by_cases hc : idxStep g.idx = 0
    · have key : stepGen clock fuel Strategy.lazy g t =
          some (mkSnowflakeId (wrap64 (g.last_time_millis + 1)) g.machine_bits 0,
            ⟨wrap64 (g.last_time_millis + 1), g.machine_bits, 0⟩, t) := by
        simp [stepGen, lazy_generate, hc]
      rw [key] at h
      simp only [Option.some.injEq, Prod.mk.injEq] at h
      rw [← h.2.1]
      exact hc.symm
    · have key : stepGen clock fuel Strategy.lazy g t =
          some (mkSnowflakeId g.last_time_millis g.machine_bits (idxStep g.idx),
            ⟨g.last_time_millis, g.machine_bits, idxStep g.idx⟩, t) := by
        simp [stepGen, lazy_generate, hc]
      rw [key] at h
      simp only [Option.some.injEq, Prod.mk.injEq] at h
      rw [← h.2.1]

end Snow

namespace Snow

lemma idxStep_resolve (i : Nat) : idxStep i = (i + 1) % 2048 := by
  unfold idxStep
  omega

/-- For `generate` and `lazy_generate` bursts, the post-call sequence values
walk the residues `(idxStep i0 + j) % 2048`, and within at most 2048 calls the
returned ids are pairwise distinct (they differ in their low 12 bits). -/
lemma run_pairwise_basic_lazy {clock : Clock} {fuel : Nat} {s : Strategy}
    (hs : s = Strategy.basic ∨ s = Strategy.lazy) :
    ∀ (n : Nat) (g : SnowflakeIdGenerator) (t : Nat) res, n ≤ 2048 →
    runGen clock fuel (List.replicate n s) g t = some res →
    (∀ p ∈ res.1, ∃ j, j < n ∧ p.2.idx = (idxStep g.idx + j) % 2048) ∧
    (res.1.map Prod.fst).Pairwise (fun a b => a ≠ b) := by
  intro n
  induction n with
  | zero =>
    intro g t res hn h
    rw [List.replicate_zero, runGen] at h
    simp only [Option.some.injEq] at h
    subst h
    exact ⟨by intro p hp; exact absurd hp (by simp), by simp⟩
  | succ n ih =>
    intro g t res hn h
    rw [List.replicate_succ, runGen] at h
    rcases hstep : stepGen clock fuel s g t with _ | ⟨id, g1, t1⟩ <;>
      rw [hstep] at h <;> dsimp only at h
    · exact absurd h (by simp)
    · rcases h2 : runGen clock fuel (List.replicate n s) g1 t1
        with _ | ⟨l, gf, tf⟩ <;> rw [h2] at h <;> dsimp only at h
      · exact absurd h (by simp)
      · simp only [Option.some.injEq] at h
        subst h
        have hg1 : g1.idx = idxStep g.idx := step_idx_basic_lazy hs hstep
        have hg1lt : g1.idx < 2048 := hg1 ▸ idxStep_lt g.idx
        obtain ⟨ihmem, ihpw⟩ := ih g1 t1 (l, gf, tf) (by omega) h2
        have hshift : ∀ p ∈ l, ∃ j, 0 < j ∧ j < n + 1 ∧
            p.2.idx = (idxStep g.idx + j) % 2048 := by
          intro p hp
          obtain ⟨j, hj, hpj⟩ := ihmem p hp
          refine ⟨j + 1, by omega, by omega, ?_⟩
          rw [hpj, hg1, idxStep_resolve _]
          omega
        constructor
        · intro p hp
          rcases List.mem_cons.mp hp with rfl | hp
          · exact ⟨0, by omega, by rw [hg1]; omega⟩
          · obtain ⟨j, -, hj2, hpj⟩ := hshift p hp
            exact ⟨j, hj2, hpj⟩
        · simp only [List.map_cons]
          refine List.Pairwise.cons ?_ ihpw
          intro q hq
          obtain ⟨p, hp, rfl⟩ := List.mem_map.mp hq
          have hid : id = mkSnowflakeId g1.last_time_millis g1.machine_bits g1.idx :=
            (stepGen_cases hstep).1
          have hpid : p.1 =
              mkSnowflakeId p.2.last_time_millis p.2.machine_bits p.2.idx :=
            run_ids h2 p hp
          obtain ⟨j, hj0, hj1, hpj⟩ := hshift p hp
          rw [hid, hpid]
          have hx : idxStep g.idx < 2048 := idxStep_lt g.idx
          apply mkSnowflakeId_ne_of_idx_ne
          · omega
          · omega
          · rw [hg1]
            omega

end Snow

namespace Snow

/-- Invariant maintained by `real_time_generate` after its first call, under
a non-decreasing clock with readings in `[0, 2 ^ 41)`. -/
def rtInv (clock : Clock) (t : Nat) (g : SnowflakeIdGenerator) : Prop :=
  (∀ u, t ≤ u → g.last_time_millis ≤ clock u) ∧ g.idx < 2048 ∧
    0 ≤ g.last_time_millis ∧ g.last_time_millis < 2 ^ 41

lemma rt_step_inv_first {clock : Clock} {fuel : Nat} {g : SnowflakeIdGenerator}
    {t : Nat} {id : Int} {g' : SnowflakeIdGenerator} {t' : Nat}
    (hmono : ∀ a b, a ≤ b → clock a ≤ clock b)
    (hcb : ∀ u, 0 ≤ clock u ∧ clock u < 2 ^ 41)
    (h : real_time_generate clock fuel g t = some (id, g', t')) :
    rtInv clock t' g' := by
  by_cases heq : clock t = g.last_time_millis
  · by_cases hc : idxStep g.idx = 0
    · rcases hb : biding_time_conditions clock g.last_time_millis (t + 1) fuel
        with _ | ⟨r, t2⟩
      · rw [real_time_generate] at h
        simp [hc, heq, hb] at h
      · rw [real_time_generate_eq_wrap_some heq hc hb] at h
        simp only [Option.some.injEq, Prod.mk.injEq] at h
        obtain ⟨-, h2, h3⟩ := h
        subst h2; subst h3
        obtain ⟨sp, hsp1, hsp2, hsp3, hsp4⟩ := biding_some hb
        refine ⟨?_, by show (0 : Nat) < 2048; norm_num, ?_, ?_⟩
        · intro u hu
          show r ≤ clock u
          rw [hsp3]
          exact hmono sp u (by omega)
        · show 0 ≤ r
          rw [hsp3]; exact (hcb sp).1
        · show r < 2 ^ 41
          rw [hsp3]; exact (hcb sp).2
    · rw [real_time_generate_eq_nonwrap heq hc] at h
      simp only [Option.some.injEq, Prod.mk.injEq] at h
      obtain ⟨-, h2, h3⟩ := h
      subst h2; subst h3
      refine ⟨?_, idxStep_lt g.idx, ?_, ?_⟩
      · intro u hu
        show g.last_time_millis ≤ clock u
        rw [← heq]
        exact hmono t u (by omega)
      · show 0 ≤ g.last_time_millis
        rw [← heq]; exact (hcb t).1
      · show g.last_time_millis < 2 ^ 41
        rw [← heq]; exact (hcb t).2
  · rw [real_time_generate_ne heq] at h
    simp only [Option.some.injEq, Prod.mk.injEq] at h
    obtain ⟨-, h2, h3⟩ := h
    subst h2; subst h3
    refine ⟨?_, by show (0 : Nat) < 2048; norm_num, (hcb t).1, (hcb t).2⟩
    intro u hu
    show clock t ≤ clock u
    exact hmono t u (by omega)

lemma rt_step_key {clock : Clock} {fuel : Nat} {g : SnowflakeIdGenerator}
    {t : Nat} {id : Int} {g' : SnowflakeIdGenerator} {t' : Nat}
    (hmono : ∀ a b, a ≤ b → clock a ≤ clock b)
    (hcb : ∀ u, 0 ≤ clock u ∧ clock u < 2 ^ 41)
    (hinv : rtInv clock t g)
    (h : real_time_generate clock fuel g t = some (id, g', t')) :
    rtInv clock t' g' ∧
      g.last_time_millis * 2048 + (g.idx : Int) <
        g'.last_time_millis * 2048 + (g'.idx : Int) := by
  obtain ⟨hdom, hidx, hl0, hl1⟩ := hinv
  refine ⟨rt_step_inv_first hmono hcb h, ?_⟩
  by_cases heq : clock t = g.last_time_millis
  · by_cases hc : idxStep g.idx = 0
    · rcases hb : biding_time_conditions clock g.last_time_millis (t + 1) fuel
        with _ | ⟨r, t2⟩
      · rw [real_time_generate] at h
        simp [hc, heq, hb] at h
      · rw [real_time_generate_eq_wrap_some heq hc hb] at h
        simp only [Option.some.injEq, Prod.mk.injEq] at h
        obtain ⟨-, h2, -⟩ := h
        have hl : g'.last_time_millis = r := by rw [← h2]
        have hi' : g'.idx = 0 := by rw [← h2]
        rw [hl, hi']
        obtain ⟨sp, hsp1, hsp2, hsp3, hsp4⟩ := biding_some hb
        have h5 : g.last_time_millis + 1 ≤ r := hsp4
        push_cast
        omega
    · rw [real_time_generate_eq_nonwrap heq hc] at h
      simp only [Option.some.injEq, Prod.mk.injEq] at h
      obtain ⟨-, h2, -⟩ := h
      have hl : g'.last_time_millis = g.last_time_millis := by rw [← h2]
      have hi' : g'.idx = idxStep g.idx := by rw [← h2]
      rw [hl, hi', idxStep_resolve]
      rw [idxStep_resolve] at hc
      omega
  · rw [real_time_generate_ne heq] at h
    simp only [Option.some.injEq, Prod.mk.injEq] at h
    obtain ⟨-, h2, -⟩ := h
    have hl : g'.last_time_millis = clock t := by rw [← h2]
    have hi' : g'.idx = 0 := by rw [← h2]
    rw [hl, hi']
    have h4 : g.last_time_millis ≤ clock t := hdom t (le_refl t)
    have h5 : g.last_time_millis + 1 ≤ clock t := by
      rcases lt_or_eq_of_le h4 with h' | h'
      · omega
      · exact absurd h'.symm heq
    push_cast
    omega

end Snow

namespace Snow

/-- Strictly increasing `(last_time_millis, idx)` keys make every
`real_time_generate` burst duplicate-free once the invariant holds. -/
lemma rt_run_pairwise {clock : Clock} {fuel : Nat}
    (hmono : ∀ a b, a ≤ b → clock a ≤ clock b)
    (hcb : ∀ u, 0 ≤ clock u ∧ clock u < 2 ^ 41) :
    ∀ (n : Nat) (g : SnowflakeIdGenerator) (t : Nat) res,
    0 ≤ g.machine_bits → g.machine_bits < 2 ^ 10 → rtInv clock t g →
    runGen clock fuel (List.replicate n Strategy.realTime) g t = some res →
    ((res.1.map Prod.fst).Pairwise (fun a b => a ≠ b) ∧
      ∀ p ∈ res.1, (p.2.idx < 2048 ∧ 0 ≤ p.2.last_time_millis ∧
          p.2.last_time_millis < 2 ^ 41) ∧
        g.last_time_millis * 2048 + (g.idx : Int) <
          p.2.last_time_millis * 2048 + (p.2.idx : Int)) := by
  intro n
  induction n with
  | zero =>
    intro g t res hm hm2 hinv h
    rw [List.replicate_zero, runGen] at h
    simp only [Option.some.injEq] at h
    subst h
    exact ⟨by simp, by intro p hp; exact absurd hp (by simp)⟩
  | succ n ih =>
    intro g t res hm hm2 hinv h
    rw [List.replicate_succ, runGen] at h
    rcases hstep : stepGen clock fuel Strategy.realTime g t
      with _ | ⟨id, g1, t1⟩ <;> rw [hstep] at h <;> dsimp only at h
    · exact absurd h (by simp)
    · rcases h2 : runGen clock fuel (List.replicate n Strategy.realTime) g1 t1
        with _ | ⟨l, gf, tf⟩ <;> rw [h2] at h <;> dsimp only at h
      · exact absurd h (by simp)
      · simp only [Option.some.injEq] at h
        subst h
        replace hstep : real_time_generate clock fuel g t = some (id, g1, t1) :=
          hstep
        obtain ⟨hinv1, hkey1⟩ := rt_step_key hmono hcb hinv hstep
        have hg1m : g1.machine_bits = g.machine_bits :=
          (@stepGen_cases clock fuel Strategy.realTime g t id g1 t1 hstep).2.1
        obtain ⟨ihpw, ihmem⟩ := ih g1 t1 (l, gf, tf) (by rw [hg1m]; exact hm)
          (by rw [hg1m]; exact hm2) hinv1 h2
        have hmach : ∀ p ∈ l, p.2.machine_bits = g1.machine_bits :=
          run_machine h2
        constructor
        · simp only [List.map_cons]
          refine List.Pairwise.cons ?_ ihpw
          intro q hq
          obtain ⟨p, hp, rfl⟩ := List.mem_map.mp hq
          obtain ⟨h1, h2', h3⟩ := @stepGen_cases clock fuel Strategy.realTime g t id g1 t1 hstep
          have hpid : p.1 =
              mkSnowflakeId p.2.last_time_millis p.2.machine_bits p.2.idx :=
            run_ids h2 p hp
          obtain ⟨⟨hpi, hpl0, hpl1⟩, hpkey⟩ := ihmem p hp
          rw [h1, hpid, hmach p hp]
          apply mkSnowflakeId_ne_of_key_ne
          · exact hinv1.2.2.1
          · exact hinv1.2.2.2
          · exact hpl0
          · exact hpl1
          · rw [hg1m]; exact hm
          · rw [hg1m]; exact hm2
          · exact hinv1.2.1
          · exact hpi
          · omega
        · intro p hp
          rcases List.mem_cons.mp hp with rfl | hp
          · exact ⟨⟨hinv1.2.1, hinv1.2.2.1, hinv1.2.2.2⟩, hkey1⟩
          · obtain ⟨hb, hk⟩ := ihmem p hp
            exact ⟨hb, by omega⟩

end Snow

namespace Snow

lemma rt_run_pairwise_any {clock : Clock} {fuel : Nat}
    (hmono : ∀ a b, a ≤ b → clock a ≤ clock b)
    (hcb : ∀ u, 0 ≤ clock u ∧ clock u < 2 ^ 41)
    (n : Nat) (g : SnowflakeIdGenerator) (t : Nat)
    (res : List (Int × SnowflakeIdGenerator) × SnowflakeIdGenerator × Nat)
    (hm : 0 ≤ g.machine_bits) (hm2 : g.machine_bits < 2 ^ 10)
    (hrun : runGen clock fuel (List.replicate n Strategy.realTime) g t = some res) :
    (res.1.map Prod.fst).Pairwise (fun a b => a ≠ b) := by
  cases n with
  | zero =>
    rw [List.replicate_zero, runGen] at hrun
    simp only [Option.some.injEq] at hrun
    subst hrun
    simp
  | succ n =>
    rw [List.replicate_succ, runGen] at hrun
    rcases hstep : stepGen clock fuel Strategy.realTime g t
      with _ | ⟨id, g1, t1⟩ <;> rw [hstep] at hrun <;> dsimp only at hrun
    · exact absurd hrun (by simp)
    · rcases h2 : runGen clock fuel (List.replicate n Strategy.realTime) g1 t1
        with _ | ⟨l, gf, tf⟩ <;> rw [h2] at hrun <;> dsimp only at hrun
      · exact absurd hrun (by simp)
      · simp only [Option.some.injEq] at hrun
        subst hrun
        replace hstep : real_time_generate clock fuel g t = some (id, g1, t1) :=
          hstep
        have hinv1 : rtInv clock t1 g1 := rt_step_inv_first hmono hcb hstep
        have hg1m : g1.machine_bits = g.machine_bits :=
          (@stepGen_cases clock fuel Strategy.realTime g t id g1 t1 hstep).2.1
        obtain ⟨ihpw, ihmem⟩ := rt_run_pairwise hmono hcb n g1 t1 (l, gf, tf)
          (by rw [hg1m]; exact hm) (by rw [hg1m]; exact hm2) hinv1 h2
        simp only [List.map_cons]
        refine List.Pairwise.cons ?_ ihpw
        intro q hq
        obtain ⟨p, hp, rfl⟩ := List.mem_map.mp hq
        have hid : id = mkSnowflakeId g1.last_time_millis g1.machine_bits g1.idx :=
          (@stepGen_cases clock fuel Strategy.realTime g t id g1 t1 hstep).1
        have hpid : p.1 =
            mkSnowflakeId p.2.last_time_millis p.2.machine_bits p.2.idx :=
          run_ids h2 p hp
        obtain ⟨⟨hpi, hpl0, hpl1⟩, hpkey⟩ := ihmem p hp
        rw [hid, hpid, run_machine h2 p hp]
        apply mkSnowflakeId_ne_of_key_ne
        · exact hinv1.2.2.1
        · exact hinv1.2.2.2
        · exact hpl0
        · exact hpl1
        · rw [hg1m]; exact hm
        · rw [hg1m]; exact hm2
        · exact hinv1.2.1
        · exact hpi
        · omega

/-- C4 (amended): for every strategy, every generator state with
`machine_bits` in the reserved 10-bit width, and a non-decreasing clock, a
burst of up to 2048 consecutive identifiers from one generator instance is
pairwise distinct — provided additionally, for `real_time_generate` only,
that every clock reading lies in `[0, 2 ^ 41)` (otherwise timestamp-field
truncation can make two ids collide). -/
theorem claim_C4 (strat : Strategy) (clock : Clock) (fuel : Nat)
    (g : SnowflakeIdGenerator) (t : Nat) (n : Nat)
    (res : List (Int × SnowflakeIdGenerator) × SnowflakeIdGenerator × Nat)
    (hn : n ≤ 2048)
    (hmono : ∀ a b, a ≤ b → clock a ≤ clock b)
    (hm : 0 ≤ g.machine_bits) (hm2 : g.machine_bits < 2 ^ 10)
    (hrt : strat = Strategy.realTime → ∀ u, 0 ≤ clock u ∧ clock u < 2 ^ 41)
    (hrun : runGen clock fuel (List.replicate n strat) g t = some res) :
    (res.1.map Prod.fst).Pairwise (fun a b => a ≠ b) := by
  cases strat with
  | basic => exact (run_pairwise_basic_lazy (Or.inl rfl) n g t res hn hrun).2
  | lazy => exact (run_pairwise_basic_lazy (Or.inr rfl) n g t res hn hrun).2
  | realTime => exact rt_run_pairwise_any hmono (hrt rfl) n g t res hm hm2 hrun

end Snow

namespace Snow

/-- Ids and post-states of a `real_time_generate` burst in which every
reading is fresh (differs from the stored timestamp). -/
def rtFreshList (clock : Clock) (m : Int) : Nat → Nat → List (Int × SnowflakeIdGenerator)
  | _, 0 => []
  | t, n + 1 =>
    (mkSnowflakeId (clock t) m 0, ⟨clock t, m, 0⟩) ::
      rtFreshList clock m (t + 1) n

lemma runGen_rt_fresh (clock : Clock) (fuel : Nat)
    (hstrict : ∀ a b, a < b → clock a < clock b) :
    ∀ (n : Nat) (g : SnowflakeIdGenerator) (t : Nat),
      clock t ≠ g.last_time_millis →
      ∃ gf, runGen clock fuel (List.replicate n Strategy.realTime) g t =
        some (rtFreshList clock g.machine_bits t n, gf, t + n) := by
  intro n
  induction n with
  | zero =>
    intro g t hne
    exact ⟨g, by simp [runGen, rtFreshList]⟩
  | succ n ih =>
    intro g t hne
    have hstep : stepGen clock fuel Strategy.realTime g t =
        some (mkSnowflakeId (clock t) g.machine_bits 0,
          ⟨clock t, g.machine_bits, 0⟩, t + 1) :=
      real_time_generate_ne hne
    have hne1 : clock (t + 1) ≠
        (⟨clock t, g.machine_bits, 0⟩ : SnowflakeIdGenerator).last_time_millis := by
      show clock (t + 1) ≠ clock t
      exact ne_of_gt (hstrict t (t + 1) (by omega))
    obtain ⟨gf, hrest⟩ := ih ⟨clock t, g.machine_bits, 0⟩ (t + 1) hne1
    refine ⟨gf, ?_⟩
    rw [List.replicate_succ, runGen, hstep]
    dsimp only
    rw [hrest]
    dsimp only
    rw [rtFreshList]
    have e : t + 1 + n = t + (n + 1) := by omega
    rw [e]

theorem claim_C4_cex :
    (∀ a b : Nat, a ≤ b →
      (fun s : Nat => (10 : Int) + s * 2 ^ 42) a ≤
        (fun s : Nat => (10 : Int) + s * 2 ^ 42) b) ∧
    (∃ res, runGen (fun s : Nat => (10 : Int) + s * 2 ^ 42) 1
        (List.replicate 2048 Strategy.realTime) ⟨5, 635, 0⟩ 0 = some res ∧
      ¬ (res.1.map Prod.fst).Pairwise (fun a b => a ≠ b)) := by
  constructor
  · intro a b hab
    dsimp only
    have hc : (a : Int) ≤ (b : Int) := by exact_mod_cast hab
    nlinarith
  · obtain ⟨gf, hrun⟩ := runGen_rt_fresh (fun s : Nat => (10 : Int) + s * 2 ^ 42) 1
      (by
        intro a b hab
        dsimp only
        have hc : (a : Int) < (b : Int) := by exact_mod_cast hab
        nlinarith)
      2048 ⟨5, 635, 0⟩ 0 (by norm_num)
    refine ⟨_, hrun, ?_⟩
    intro hpw
    have e1 : rtFreshList (fun s : Nat => (10 : Int) + s * 2 ^ 42) 635 0 2048 =
        (mkSnowflakeId 10 635 0, ⟨10, 635, 0⟩) ::
          rtFreshList (fun s : Nat => (10 : Int) + s * 2 ^ 42) 635 1 2047 := by
      rw [show (2048 : Nat) = 2047 + 1 from rfl, rtFreshList]
      norm_num
    have e2 : rtFreshList (fun s : Nat => (10 : Int) + s * 2 ^ 42) 635 1 2047 =
        (mkSnowflakeId (10 + 2 ^ 42) 635 0, ⟨10 + 2 ^ 42, 635, 0⟩) ::
          rtFreshList (fun s : Nat => (10 : Int) + s * 2 ^ 42) 635 2 2046 := by
      rw [show (2047 : Nat) = 2046 + 1 from rfl, rtFreshList]
      norm_num
    rw [e1, e2] at hpw
    simp only [List.map_cons] at hpw
    rcases hpw with _ | ⟨hrel, -⟩
    have hne := hrel (mkSnowflakeId (10 + 2 ^ 42) 635 0) (by simp)
    exact hne (by decide)

theorem claim_C4_witness :
    ((([(mkSnowflakeId 5 635 1, (⟨5, 635, 1⟩ : SnowflakeIdGenerator)),
        (mkSnowflakeId 5 635 2, ⟨5, 635, 2⟩),
        (mkSnowflakeId 5 635 3, ⟨5, 635, 3⟩)],
       (⟨5, 635, 3⟩ : SnowflakeIdGenerator), (3 : Nat)) :
        List (Int × SnowflakeIdGenerator) × SnowflakeIdGenerator ×
          Nat).1.map Prod.fst).Pairwise (fun a b => a ≠ b) :=
  claim_C4 Strategy.realTime (fun _ => (5 : Int)) 1 ⟨5, 635, 0⟩ 0 3
    ([(mkSnowflakeId 5 635 1, ⟨5, 635, 1⟩), (mkSnowflakeId 5 635 2, ⟨5, 635, 2⟩),
      (mkSnowflakeId 5 635 3, ⟨5, 635, 3⟩)], ⟨5, 635, 3⟩, 3)
    (by norm_num) (fun a b h => le_refl 5) (by norm_num) (by norm_num)
    (fun _ u => ⟨by norm_num, by norm_num⟩) (by decide)

end Snow
